import Mathlib

/-!
# Verification of the `env` package (crackgoland/env)

A shallow embedding of the Go package `env`: a typed accessor over the
process environment, layered with a `.env` file mapping and an in-memory
override mapping.

Modelling conventions

* A Go `string` is a Lean `String` (a sequence of Unicode code points, i.e.
  valid UTF-8 text).  String functions of Go's standard library are defined
  on the underlying `List Char`.
* A Go `map[string]string` is an association list in which the first
  binding of a key is the live one; a `nil` map is `none`.
* Go's `error` is `Option Error`, `nil` being `none`.
* `int64`, `int32` and `int` values are Lean integers; the width of `int`
  (`strconv.IntSize`) is a parameter of the getters that depend on it.
* The process environment and the `.env` file are explicit arguments.
-/

set_option autoImplicit false

set_option linter.dupNamespace false

/-- Go `string`. -/
abbrev GoString := String

/-- Go `bool`. -/
abbrev GoBool := Bool

/-- Go signed integer values (`int`, `int32`, `int64`), as mathematical integers. -/
abbrev GoInt := Int

namespace Env

/-! ## Errors -/

/-- The `Err` field of a `*strconv.NumError`. -/
inductive NumErrKind
  | ErrSyntax
  | ErrRange
  deriving DecidableEq, Repr

/-- Error values the package returns or passes through. -/
inductive Error
  /-- `ErrLoadFileAlready` of base.go -/
  | ErrLoadFileAlready
  /-- `ErrOverflow` of base.go -/
  | ErrOverflow
  /-- `ErrNotSet` of base.go -/
  | ErrNotSet
  /-- `ErrEmpty` of base.go -/
  | ErrEmpty
  /-- `*strconv.NumError` with its `Func`, `Num` and `Err` fields -/
  | NumError (func num : GoString) (err : NumErrKind)
  /-- `os.NewSyscallError(call, errno)` -/
  | SyscallError (call errno : GoString)
  /-- `bufio.ErrTooLong` -/
  | ErrTooLong
  /-- `errors.New(message)` -/
  | New (message : GoString)
  /-- Any other error of the file system (`*fs.PathError`, a failed read) -/
  | PathError (message : GoString)
  deriving DecidableEq, Repr

/-! ## Go maps -/

/-- A non-nil Go `map[string]string`. -/
abbrev GoMap := List (GoString × GoString)

/-- The lookup `m[k]` with its `ok` flag: `some v` when the key is present. -/
def mapGet : GoMap → GoString → Option GoString
  | [], _ => none
  | (k, v) :: m, key => if k = key then some v else mapGet m key

/-- The assignment `m[k] = v`. -/
def mapSet (m : GoMap) (key value : GoString) : GoMap :=
  (key, value) :: m.filter (fun p => p.1 ≠ key)

/-- The builtin `delete(m, k)`. -/
def mapDelete (m : GoMap) (key : GoString) : GoMap :=
  m.filter (fun p => p.1 ≠ key)

/-- The builtin `len(m)`: the number of distinct keys. -/
def mapLen (m : GoMap) : Nat :=
  (m.map Prod.fst).dedup.length

/-- The lookup `m[k]` on a map that may be nil: a nil map has no key. -/
def mapGet? (m : Option GoMap) (key : GoString) : Option GoString :=
  match m with
  | none => none
  | some m => mapGet m key

/-! ## Go's `strings` package -/

/-- Drop the leading characters that belong to `cutset`. -/
def trimLeft (cutset : List Char) : List Char → List Char
  | [] => []
  | c :: cs => if c ∈ cutset then trimLeft cutset cs else c :: cs

/-- Drop the trailing characters that belong to `cutset`. -/
def trimRight (cutset : List Char) (s : List Char) : List Char :=
  (trimLeft cutset s.reverse).reverse

/-- `strings.Trim(s, cutset)`: trailing, then leading characters of `cutset` removed. -/
def Trim (s cutset : GoString) : GoString :=
  ⟨trimLeft cutset.data (trimRight cutset.data s.data)⟩

/-- `strings.HasPrefix(s, p)`. -/
def HasPrefix (s p : GoString) : Bool :=
  p.data.isPrefixOf s.data

/-- Split a character sequence at every occurrence of `sep`. -/
def splitOnChar (sep : Char) : List Char → List (List Char)
  | [] => [[]]
  | c :: cs =>
    if c = sep then [] :: splitOnChar sep cs
    else
      match splitOnChar sep cs with
      | [] => [[c]]
      | p :: ps => (c :: p) :: ps

/-- `strings.Split(s, "=")`. -/
def SplitEq (s : GoString) : List GoString :=
  (splitOnChar '=' s.data).map String.mk

/-! ## Go's `strconv` package (base 10) -/

/-- `strconv.syntaxError(fn, str)`. -/
def syntaxError (fn str : GoString) : Error :=
  Error.NumError fn str NumErrKind.ErrSyntax

/-- `strconv.rangeError(fn, str)`. -/
def rangeError (fn str : GoString) : Error :=
  Error.NumError fn str NumErrKind.ErrRange

/-- Conversion of an integer to the signed type of width `w` bits
(`int64(x)`, `int32(x)`, `int(x)`): two's complement wrap-around. -/
def wrapInt (w : Nat) (x : Int) : Int :=
  (x + 2 ^ (w - 1)) % 2 ^ w - 2 ^ (w - 1)

/-- The digit value the loop of `strconv.ParseUint` gives to a character:
`c - '0'` for a decimal digit, `lower(c) - 'a' + 10` for an ASCII letter,
`none` in the `default` case (which every non-ASCII byte takes). -/
def digitVal (c : Char) : Option Nat :=
  if 48 ≤ c.toNat ∧ c.toNat ≤ 57 then some (c.toNat - 48)
  else if c.toNat < 128 ∧ 97 ≤ (c.toNat ||| 32) ∧ (c.toNat ||| 32) ≤ 122 then
    some ((c.toNat ||| 32) - 97 + 10)
  else none

/-- The cutoff of `strconv.ParseUint` for base 10: `maxUint64/10 + 1`. -/
def cutoff10 : Nat := (2 ^ 64 - 1) / 10 + 1

/-- The digit loop of `strconv.ParseUint(s, 10, bitSize)` on `uint64`,
`n` being the value accumulated so far. -/
def parseUintLoop (s0 : GoString) (maxVal : Nat) : List Char → Nat → Nat × Option Error
  | [], n => (n, none)
  | c :: cs, n =>
    match digitVal c with
    | none => (0, some (syntaxError "ParseUint" s0))
    | some d =>
      if d ≥ 10 then (0, some (syntaxError "ParseUint" s0))
      else if n ≥ cutoff10 then (maxVal, some (rangeError "ParseUint" s0))
      else
        let n10 := n * 10 % 2 ^ 64
        let n1 := (n10 + d) % 2 ^ 64
        if n1 < n10 ∨ n1 > maxVal then (maxVal, some (rangeError "ParseUint" s0))
        else parseUintLoop s0 maxVal cs n1

/-- `strconv.ParseUint(s, 10, bitSize)` for `bitSize` 32 or 64. -/
def ParseUint (s : GoString) (bitSize : Nat) : Nat × Option Error :=
  if s = "" then (0, some (syntaxError "ParseUint" s))
  else parseUintLoop s (2 ^ bitSize - 1) s.data 0

/-- The part of `strconv.ParseInt` after the sign is picked off: `s0` is the
whole input, `neg` the sign and `body` the rest. -/
def parseIntBody (s0 : GoString) (neg : Bool) (body : List Char) (bitSize : Nat) :
    GoInt × Option Error :=
  match ParseUint ⟨body⟩ bitSize with
  | (_, some (Error.NumError _ _ NumErrKind.ErrSyntax)) => (0, some (syntaxError "ParseInt" s0))
  | (un, _) =>
    let cutoff : Nat := 2 ^ (bitSize - 1)
    if !neg && decide (un ≥ cutoff) then ((cutoff : Int) - 1, some (rangeError "ParseInt" s0))
    else if neg && decide (un > cutoff) then (-(cutoff : Int), some (rangeError "ParseInt" s0))
    else
      let n := wrapInt 64 un
      (if neg then wrapInt 64 (-n) else n, none)

/-- `strconv.ParseInt(s, 10, bitSize)` for `bitSize` 32 or 64. -/
def ParseInt (s : GoString) (bitSize : Nat) : GoInt × Option Error :=
  if s = "" then (0, some (syntaxError "ParseInt" s))
  else
    match s.data with
    | '+' :: r => parseIntBody s false r bitSize
    | '-' :: r => parseIntBody s true r bitSize
    | r => parseIntBody s false r bitSize

/-- `strconv.ParseBool(str)`. -/
def ParseBool (str : GoString) : GoBool × Option Error :=
  if str ∈ ["1", "t", "T", "true", "TRUE", "True"] then (true, none)
  else if str ∈ ["0", "f", "F", "false", "FALSE", "False"] then (false, none)
  else (false, some (syntaxError "ParseBool" str))

/-! ## The process environment (Go's `os` package on Unix) -/

/-- The process environment: the table behind `os.LookupEnv`, `os.Setenv`
and `os.Unsetenv`. -/
abbrev OSEnv := GoMap

/-- `os.LookupEnv(key)`: the empty key is never found. -/
def LookupEnv (os : OSEnv) (key : GoString) : Option GoString :=
  if key = "" then none else mapGet os key

/-- `os.Setenv(key, value)`: `EINVAL` for an empty key, a key holding `=` or
NUL, or a value holding NUL; the table is then left as it was. -/
def Setenv (os : OSEnv) (key value : GoString) : OSEnv × Option Error :=
  if key = "" ∨ '=' ∈ key.data ∨ '\x00' ∈ key.data ∨ '\x00' ∈ value.data then
    (os, some (Error.SyscallError "setenv" "EINVAL"))
  else (mapSet os key value, none)

/-- `os.Unsetenv(key)`: removes the key and reports no error. -/
def Unsetenv (os : OSEnv) (key : GoString) : OSEnv × Option Error :=
  (mapDelete os key, none)

/-! ## The accessor (base.go, getter.go, setter.go) -/

/-- The struct `Set`: the file mapping and the override mapping, each
possibly nil. -/
structure Set where
  fileData : Option GoMap
  override : Option GoMap
  deriving DecidableEq, Repr

/-- A freshly constructed accessor, `&Set{}`: both mappings nil. -/
def zeroSet : Set := ⟨none, none⟩

/-- The variable `TrimCharacters` of getter.go. -/
def TrimCharacters : GoString := " \n\t"

/-- The method `Set.String` of getter.go. -/
def Set.String (env : Set) (os : OSEnv) (key defaultValue : GoString) : GoString × GoBool :=
  match mapGet? env.override key with
  | some val => (val, true)
  | none =>
    let r : GoString × GoBool :=
      match LookupEnv os key with
      | some val => (val, true)
      | none =>
        match mapGet? env.fileData key with
        | some val => (val, true)
        | none => (defaultValue, false)
    (Trim r.1 TrimCharacters, r.2)

/-- The method `Set.Int64` of getter.go. -/
def Set.Int64 (env : Env.Set) (os : OSEnv) (key : GoString) (defaultValue : GoInt) :
    GoInt × Option Error :=
  match env.String os key "" with
  | (_, false) => (defaultValue, some Error.ErrNotSet)
  | (s, true) =>
    if s.length = 0 then (defaultValue, some Error.ErrEmpty)
    else
      match ParseInt s 64 with
      | (_, some err) => (defaultValue, some err)
      | (v, none) => (v, none)

/-- The method `Set.Int` of getter.go, for a native `int` of `intSize` bits.
The conversion `int64(defaultValue)` of an `int` keeps the value. -/
def Set.Int (intSize : Nat) (env : Env.Set) (os : OSEnv) (key : GoString) (defaultValue : GoInt) :
    GoInt × Option Error :=
  match env.Int64 os key defaultValue with
  | (_, some err) => (defaultValue, some err)
  | (v, none) =>
    let i := wrapInt intSize v
    if decide (v ≤ 0) = decide (i > 0) then (defaultValue, some Error.ErrOverflow)
    else (i, none)

/-- The method `Set.Bool` of getter.go. -/
def Set.Bool (env : Env.Set) (os : OSEnv) (key : GoString) (defaultValue : GoBool) :
    GoBool × Option Error :=
  match env.String os key "" with
  | (_, false) => (defaultValue, some Error.ErrNotSet)
  | (s, true) =>
    if s.length = 0 then (defaultValue, some Error.ErrEmpty)
    else
      match ParseBool s with
      | (_, some err) => (defaultValue, some err)
      | (v, none) => (v, none)

/-- The method `Set.Int32` of getter.go. -/
def Set.Int32 (env : Env.Set) (os : OSEnv) (key : GoString) (defaultValue : GoInt) :
    GoInt × Option Error :=
  match env.String os key "" with
  | (_, false) => (defaultValue, some Error.ErrNotSet)
  | (s, true) =>
    if s.length = 0 then (defaultValue, some Error.ErrEmpty)
    else
      match ParseInt s 32 with
      | (_, some err) => (defaultValue, some err)
      | (v, none) => (wrapInt 32 v, none)

/-- The method `Set.Set` of setter.go: the new accessor, the new process
environment and the error. -/
def Set.Set (env : Env.Set) (os : OSEnv) (global : GoBool) (key value : GoString) :
    Env.Set × OSEnv × Option Error :=
  let override : GoMap :=
    match env.override with
    | none => []
    | some o => o
  let env1 : Env.Set := { env with override := some (mapSet override key value) }
  if global then
    let r := Setenv os key value
    (env1, r.1, r.2)
  else (env1, os, none)

/-- The method `Set.UnSet` of setter.go. -/
def Set.UnSet (env : Env.Set) (os : OSEnv) (key : GoString) : Env.Set × OSEnv × Option Error :=
  let s1 : Env.Set × GoBool :=
    match env.override with
    | none => (env, true)
    | some o =>
      match mapGet o key with
      | some _ => ({ env with override := some (mapDelete o key) }, false)
      | none => (env, true)
  let s2 : Env.Set × GoBool :=
    match s1.1.fileData with
    | none => s1
    | some f =>
      match mapGet f key with
      | some _ => ({ s1.1 with fileData := some (mapDelete f key) }, false)
      | none => s1
  if !s2.2 then (s2.1, os, none)
  else
    let r := Unsetenv os key
    (s2.1, r.1, r.2)

/-! ## Reading the `.env` file (`bufio.Scanner`, `Set.LoadFile`) -/

/-- What `filepath.Abs(FileName)` and `os.Open` find when `LoadFile` runs. -/
inductive DotEnvFile
  /-- `filepath.Abs` fails, with the text of its error -/
  | absError (message : GoString)
  /-- `os.Open` fails and `os.IsNotExist(err)` holds -/
  | notExist
  /-- `os.Open` fails with another error, of the given text -/
  | openError (message : GoString)
  /-- the file opens: the bytes it delivers, then end of file (`none`) or a
  failed read (the text of its error) -/
  | opened (content : GoString) (readErr : Option GoString)
  deriving DecidableEq, Repr

/-- `bufio.MaxScanTokenSize`. -/
def MaxScanTokenSize : Nat := 64 * 1024

/-- `dropCR` of bufio: a trailing carriage return is dropped. -/
def dropCR (data : List Char) : List Char :=
  if data.getLast? = some '\r' then data.dropLast else data

/-- The raw tokens of `bufio.ScanLines`: the data cut at every newline, a
final non-empty piece without newline included; `cur` is the reversed
beginning of the current line. -/
def rawLines : List Char → List Char → List (List Char)
  | [], cur => if cur = [] then [] else [cur.reverse]
  | c :: cs, cur => if c = '\n' then cur.reverse :: rawLines cs [] else rawLines cs (c :: cur)

/-- The lines `scanner.Scan()` delivers one after the other: it stops, with
`bufio.ErrTooLong`, at the first line that fills the buffer of
`MaxScanTokenSize` bytes before its newline. -/
def scanTokens : List (List Char) → List GoString × Option Error
  | [] => ([], none)
  | raw :: rest =>
    if (String.mk raw).utf8ByteSize ≥ MaxScanTokenSize then ([], some Error.ErrTooLong)
    else
      let r := scanTokens rest
      (String.mk (dropCR raw) :: r.1, r.2)

/-- A run of the scanner over the file: the lines of `scanner.Text()` and
the final `scanner.Err()`. -/
def scanFile (content : GoString) (readErr : Option GoString) :
    List GoString × Option Error :=
  match scanTokens (rawLines content.data []) with
  | (lines, some err) => (lines, some err)
  | (lines, none) => (lines, readErr.map Error.PathError)

/-- The body of the scanning loop of `Set.LoadFile` for one line. -/
def loadLine (fileData : GoMap) (line : GoString) : GoMap :=
  if HasPrefix (Trim line " \t") "#" then fileData
  else
    match SplitEq line with
    | [p0, p1] => mapSet fileData (Trim p0 " ,\t;#\"") (Trim p1 " ,\t;#\"")
    | _ => fileData

/-- The guard at the head of `Set.LoadFile`: the file mapping is non-nil and
non-empty, and the override mapping is non-nil. -/
def alreadyLoaded (env : Env.Set) : Bool :=
  (match env.fileData with
    | none => false
    | some f => decide (mapLen f ≠ 0)) && env.override.isSome

/-- The method `Set.LoadFile` of base.go: the new accessor and the error. -/
def Set.LoadFile (env : Env.Set) (file : DotEnvFile) : Env.Set × Option Error :=
  if alreadyLoaded env then (env, some Error.ErrLoadFileAlready)
  else
    match file with
    | DotEnvFile.absError message => (env, some (Error.New ("filepath.Abs() error: " ++ message)))
    | DotEnvFile.notExist => (env, none)
    | DotEnvFile.openError message => (env, some (Error.PathError message))
    | DotEnvFile.opened content readErr =>
      let r := scanFile content readErr
      ({ env with fileData := some (r.1.foldl loadLine []) }, r.2)

/-! ## The default getters (default.go)

Each method returns a closure over the accessor; the closure reads the
accessor and the process environment when it is called, which are the
arguments `env` and `os` here. -/

/-- The method `Set.Default` of default.go. -/
def Set.Default (env : Env.Set) (os : OSEnv) (defaultValue : GoString) : GoString → GoString :=
  fun key => (env.String os key defaultValue).1

/-- The method `Set.DefaultInt` of default.go, for an `int` of `intSize` bits. -/
def Set.DefaultInt (intSize : Nat) (env : Env.Set) (os : OSEnv) (defaultValue : GoInt) :
    GoString → GoInt :=
  fun key => (env.Int intSize os key defaultValue).1

/-- The method `Set.DefaultBool` of default.go. -/
def Set.DefaultBool (env : Env.Set) (os : OSEnv) (defaultValue : GoBool) : GoString → GoBool :=
  fun key => (env.Bool os key defaultValue).1

/-- The method `Set.DefaultInt32` of default.go. -/
def Set.DefaultInt32 (env : Env.Set) (os : OSEnv) (defaultValue : GoInt) : GoString → GoInt :=
  fun key => (env.Int32 os key defaultValue).1

/-- The method `Set.DefaultInt64` of default.go. -/
def Set.DefaultInt64 (env : Env.Set) (os : OSEnv) (defaultValue : GoInt) : GoString → GoInt :=
  fun key => (env.Int64 os key defaultValue).1

/-! ## Accessors as objects sharing a store of maps (`Set.Clone`, setter.go)

A Go map is a reference: two accessors whose fields hold the same map
would see each other's `Set` and `UnSet`. To state what `Clone` separates,
the maps live in a store, a field of the struct is nil or the address of a
map, and `Set`, `UnSet` and `Clone` are given on these objects. Each struct
is an object of its own (`Clone` returns a fresh `&Set{}`) and is passed
explicitly. -/

/-- The store of map objects: the map at each address and the first
address not yet allocated. -/
structure Heap where
  maps : Nat → GoMap
  next : Nat

/-- The struct `Set` with its fields as references: nil or the address of
a map in the store. -/
structure SetObj where
  fileData : Option Nat
  override : Option Nat
  deriving DecidableEq, Repr

/-- `make(map[string]string)`: a new empty map at a fresh address. -/
def Heap.make (h : Heap) : Heap × Nat :=
  (⟨Function.update h.maps h.next [], h.next + 1⟩, h.next)

/-- Replace the map at an address, as an assignment or `delete` on it does. -/
def Heap.put (h : Heap) (a : Nat) (m : GoMap) : Heap :=
  ⟨Function.update h.maps a m, h.next⟩

/-- The accessor an object stands for: its fields read through the store. -/
def SetObj.view (e : SetObj) (h : Heap) : Env.Set :=
  ⟨e.fileData.map h.maps, e.override.map h.maps⟩

/-- The method `Set.Set` of setter.go on objects. -/
def SetObj.Set (e : SetObj) (h : Heap) (os : OSEnv) (global : GoBool) (key value : GoString) :
    SetObj × Heap × OSEnv × Option Error :=
  let r : SetObj × Heap × Nat :=
    match e.override with
    | none => ({ e with override := some h.make.2 }, h.make.1, h.make.2)
    | some a => (e, h, a)
  let h2 := r.2.1.put r.2.2 (mapSet (r.2.1.maps r.2.2) key value)
  if global then
    let s := Setenv os key value
    (r.1, h2, s.1, s.2)
  else (r.1, h2, os, none)

/-- The method `Set.UnSet` of setter.go on objects. -/
def SetObj.UnSet (e : SetObj) (h : Heap) (os : OSEnv) (key : GoString) :
    SetObj × Heap × OSEnv × Option Error :=
  let s1 : Heap × GoBool :=
    match e.override with
    | none => (h, true)
    | some a =>
      match mapGet (h.maps a) key with
      | some _ => (h.put a (mapDelete (h.maps a) key), false)
      | none => (h, true)
  let s2 : Heap × GoBool :=
    match e.fileData with
    | none => s1
    | some a =>
      match mapGet (s1.1.maps a) key with
      | some _ => (s1.1.put a (mapDelete (s1.1.maps a) key), false)
      | none => s1
  if !s2.2 then (e, s2.1, os, none)
  else
    let r := Unsetenv os key
    (e, s2.1, r.1, r.2)

/-- The loop `for key, val := range m { n[key] = val }` into an empty map
`n`: every live entry of `m` is assigned once. -/
def copyMap (m : GoMap) : GoMap :=
  m.foldr (fun p acc => mapSet acc p.1 p.2) []

/-- The method `Set.Clone` of setter.go on objects: the new object and the
store after the two copies. -/
def SetObj.Clone (e : SetObj) (h : Heap) : SetObj × Heap :=
  let r1 : SetObj × Heap :=
    match e.fileData with
    | none => (⟨none, none⟩, h)
    | some a => (⟨some h.make.2, none⟩, h.make.1.put h.make.2 (copyMap (h.maps a)))
  match e.override with
  | none => r1
  | some a =>
    ({ r1.1 with override := some r1.2.make.2 },
      r1.2.make.1.put r1.2.make.2 (copyMap (r1.2.maps a)))

/-- A call of one of the two mutating methods of setter.go. -/
inductive Call
  | set (global : GoBool) (key value : GoString)
  | unset (key : GoString)
  deriving DecidableEq, Repr

/-- A call made on an accessor. -/
def Set.call (env : Env.Set) (os : OSEnv) : Call → Env.Set × OSEnv × Option Error
  | Call.set global key value => env.Set os global key value
  | Call.unset key => env.UnSet os key

/-- A call made on an object. -/
def SetObj.call (x : SetObj) (h : Heap) (os : OSEnv) :
    Call → SetObj × Heap × OSEnv × Option Error
  | Call.set global key value => x.Set h os global key value
  | Call.unset key => x.UnSet h os key

/-- A sequence of calls on two objects `e` and `c` that share the store and
the process environment, in any interleaving: the flag of a call is `true`
when it is made on `c` and `false` when it is made on `e`. -/
def runObjs (e c : SetObj) (h : Heap) (os : OSEnv) :
    List (Bool × Call) → SetObj × SetObj × Heap × OSEnv
  | [] => (e, c, h, os)
  | step :: rest =>
    if step.1 then
      runObjs e (c.call h os step.2).1 (c.call h os step.2).2.1 (c.call h os step.2).2.2.1 rest
    else
      runObjs (e.call h os step.2).1 c (e.call h os step.2).2.1 (e.call h os step.2).2.2.1 rest

/-! ## Logging and `ApplyLogLevel` (base.go) -/

/-- `zerolog.Level`, an `int8`. -/
abbrev Level := Int

/-- `zerolog.DebugLevel`. -/
def DebugLevel : Level := 0

/-- `zerolog.InfoLevel`. -/
def InfoLevel : Level := 1

/-- `zerolog.WarnLevel`. -/
def WarnLevel : Level := 2

/-- `zerolog.ErrorLevel`. -/
def ErrorLevel : Level := 3

/-- `zerolog.FatalLevel`. -/
def FatalLevel : Level := 4

/-- `zerolog.PanicLevel`. -/
def PanicLevel : Level := 5

/-- `zerolog.Disabled`. -/
def Disabled : Level := 7

/-- What the package does to the logging facility: the level last given to
`zerolog.SetGlobalLevel` and the messages of the `log.Warn().Msgf` calls. -/
structure LogState where
  globalLevel : Level
  warnings : List GoString
  deriving DecidableEq, Repr

/-- `unicode.ToLower(r)`: `A`..`Z` become `a`..`z`, the other ASCII
characters stay, and a character beyond ASCII is mapped by the case tables
of the `unicode` package, the parameter `table`. -/
def toLowerRune (table : Char → Char) (c : Char) : Char :=
  if c.toNat < 128 then
    if 65 ≤ c.toNat ∧ c.toNat ≤ 90 then Char.ofNat (c.toNat + 32) else c
  else table c

/-- `strings.ToLower(s)`. -/
def ToLower (table : Char → Char) (s : GoString) : GoString :=
  ⟨s.data.map (toLowerRune table)⟩

/-- The method `Set.ApplyLogLevel` of base.go: the level returned and the
state of the logging facility after the call. -/
def Set.ApplyLogLevel (table : Char → Char) (env : Env.Set) (os : OSEnv) (log : LogState)
    (defaultLevel : Level) : Level × LogState :=
  let slevel := (env.String os "LOG_LEVEL" "").1
  let low := ToLower table slevel
  let r : Level × List GoString :=
    if low ∈ ["debug", "d"] then (DebugLevel, log.warnings)
    else if low ∈ ["info", "i"] then (InfoLevel, log.warnings)
    else if low ∈ ["warn", "warning", "w"] then (WarnLevel, log.warnings)
    else if low ∈ ["error", "err", "e"] then (ErrorLevel, log.warnings)
    else if low ∈ ["fatal", "f"] then (FatalLevel, log.warnings)
    else if low ∈ ["panic", "p"] then (PanicLevel, log.warnings)
    else if low ∈ ["off", "no", "none", ""] then (Disabled, log.warnings)
    else
      (defaultLevel,
        if slevel ≠ "" then log.warnings ++ ["Log level \"" ++ slevel ++ "\" invalid."]
        else log.warnings)
  (r.1, ⟨r.1, r.2⟩)

/-! ## Definitions used to state the claims -/

/-- A character sequence that neither starts nor ends with a character of
`cutset`. -/
def edgeFree (cutset : List Char) (s : List Char) : Bool :=
  s.head?.all (fun c => decide (c ∉ cutset)) && s.getLast?.all (fun c => decide (c ∉ cutset))

/-- A string without leading and without trailing character of
`TrimCharacters`. -/
def isTrimmed (s : GoString) : Bool :=
  edgeFree TrimCharacters.data s.data

/-- The value the precedence order selects for a key, before any
trimming: that of the first tier, among override, OS environment and file
mapping, which has the key. -/
def resolve (env : Set) (os : OSEnv) (key : GoString) : Option GoString :=
  match mapGet? env.override key with
  | some v => some v
  | none =>
    match LookupEnv os key with
    | some v => some v
    | none => mapGet? env.fileData key

/-- The key is absent from the override mapping, the OS environment and the
file mapping. -/
def absentEverywhere (env : Set) (os : OSEnv) (key : GoString) : Prop :=
  mapGet? env.override key = none ∧ LookupEnv os key = none ∧ mapGet? env.fileData key = none

/-- The key resolves to a string `String` returns empty: the override
mapping holds exactly the empty string for it, or the override mapping does
not have the key and the value of the OS environment, else of the file
mapping, is empty once trimmed. -/
def resolvesEmpty (env : Set) (os : OSEnv) (key : GoString) : Prop :=
  mapGet? env.override key = some "" ∨
    (mapGet? env.override key = none ∧
      ∃ v, resolve env os key = some v ∧ Trim v TrimCharacters = "")

/-- A comment line, in the words of the file format: the content after
the leading spaces and tabs starts with `#`. -/
def isCommentLine (line : GoString) : Prop :=
  (line.data.dropWhile (fun c => c = ' ' || c = '\t')).head? = some '#'

/-- The line binds `k` to `v`, in the words of the file format: it is not
a comment and holds exactly one `=`; the part on the left of it, trimmed of
space, comma, tab, `;`, `#` and `"`, is `k`, and the part on the right,
trimmed likewise, is `v`. -/
def lineBinds (line k v : GoString) : Prop :=
  ¬ isCommentLine line ∧
    ∃ l r : List Char, line.data = l ++ '=' :: r ∧ '=' ∉ l ∧ '=' ∉ r ∧
      Trim ⟨l⟩ " ,\t;#\"" = k ∧ Trim ⟨r⟩ " ,\t;#\"" = v

/-- The key and value the loop of `Set.LoadFile` stores for a line, if any. -/
def parseLine (line : GoString) : Option (GoString × GoString) :=
  if HasPrefix (Trim line " \t") "#" then none
  else
    match SplitEq line with
    | [p0, p1] => some (Trim p0 " ,\t;#\"", Trim p1 " ,\t;#\"")
    | _ => none

/-- A sequence of calls `Set(global, key, value)`, one after the other: the
accessor and the process environment they leave. -/
def applySets (env : Set) (os : OSEnv) : List (GoBool × GoString × GoString) → Set × OSEnv
  | [] => (env, os)
  | call :: rest =>
    applySets (env.Set os call.1 call.2.1 call.2.2).1 (env.Set os call.1 call.2.1 call.2.2).2.1 rest

/-- A decimal digit, `0` to `9`. -/
def isDecDigit (c : Char) : Prop :=
  48 ≤ c.toNat ∧ c.toNat ≤ 57

instance (c : Char) : Decidable (isDecDigit c) :=
  inferInstanceAs (Decidable (48 ≤ c.toNat ∧ c.toNat ≤ 57))

/-- The number a sequence of decimal digits denotes, most significant digit
first, after the digits already read have given `acc`. -/
def decValue : List Char → Nat → Nat
  | [], acc => acc
  | c :: cs, acc => decValue cs (acc * 10 + (c.toNat - 48))

/-- The string denotes the integer `n` as an optionally signed base-10 digit
string: an optional `+` or `-`, then one or more decimal digits. -/
def denotesDecimal (s : GoString) (n : Int) : Prop :=
  ∃ digits : List Char, digits ≠ [] ∧ (∀ c ∈ digits, isDecDigit c) ∧
    ((s.data = digits ∧ n = decValue digits 0) ∨
      (s.data = '+' :: digits ∧ n = decValue digits 0) ∨
      (s.data = '-' :: digits ∧ n = -(decValue digits 0 : Int)))

/-- The character of a digit below ten. -/
def digitChar (d : Nat) : Char :=
  "0123456789".data.getD d '0'

/-- The decimal digits of `n`, most significant first, without leading
zero; `fuel` bounds the recursion and `n + 1` is enough. -/
def natDigits : Nat → Nat → List Char
  | 0, _ => []
  | fuel + 1, n =>
    if n < 10 then [digitChar n] else natDigits fuel (n / 10) ++ [digitChar (n % 10)]

/-- The canonical base-10 rendering of an integer, as `strconv.FormatInt(n, 10)`
prints it: a `-` for a negative number, then its digits. -/
def renderInt (n : Int) : GoString :=
  if n < 0 then ⟨'-' :: natDigits (n.natAbs + 1) n.natAbs⟩
  else ⟨natDigits (n.natAbs + 1) n.natAbs⟩

/-- Every map an object refers to is allocated in the store. -/
def SetObj.allocated (e : SetObj) (h : Heap) : Prop :=
  (∀ a, e.fileData = some a → a < h.next) ∧ (∀ a, e.override = some a → a < h.next)

/-- Two objects refer to no map in common. -/
def SetObj.disjoint (e c : SetObj) : Prop :=
  ∀ a, (e.fileData = some a ∨ e.override = some a) →
    ¬ (c.fileData = some a ∨ c.override = some a)

/-- Two accessors with the same contents: each mapping is nil in both or in
neither, and the two give the same result for the lookup of every key. -/
def sameContents (a b : Set) : Prop :=
  (a.fileData = none ↔ b.fileData = none) ∧ (a.override = none ↔ b.override = none) ∧
    (∀ k, mapGet? a.fileData k = mapGet? b.fileData k) ∧
    (∀ k, mapGet? a.override k = mapGet? b.override k)

/-- The two fields of an object do not refer to the same map. -/
def SetObj.separate (x : SetObj) : Prop :=
  ∀ a, x.fileData = some a → x.override ≠ some a

/-- Two objects that share no map: both are allocated in the store and
they refer to no map in common. -/
def independent (e c : SetObj) (h : Heap) : Prop :=
  e.allocated h ∧ c.allocated h ∧ e.disjoint c

/-- The sequence of calls of `runObjs` on two accessors that share nothing
but the process environment: a call changes the mappings of the accessor it
is made on, and of no other. -/
def runSets (a b : Set) (os : OSEnv) : List (Bool × Call) → Set × Set × OSEnv
  | [] => (a, b, os)
  | step :: rest =>
    if step.1 then runSets a (b.call os step.2).1 (b.call os step.2).2.1 rest
    else runSets (a.call os step.2).1 b (a.call os step.2).2.1 rest

/-! ## Lemmas on maps -/

theorem mapGet_filter_ne (m : GoMap) (key k : GoString) :
    mapGet (m.filter (fun p => p.1 ≠ key)) k = if key = k then none else mapGet m k := by
  induction m with
  | nil => simp [mapGet]
  | cons p m ih =>
    obtain ⟨a, b⟩ := p
    by_cases ha : a = key
    · subst ha
      by_cases hk : a = k
      · simp [hk] at ih ⊢
        exact ih
      · simp [mapGet, hk] at ih ⊢
        exact ih
    · by_cases hk : key = k
      · subst hk
        simp [List.filter_cons, ha, mapGet] at ih ⊢
        exact ih
      · simp [List.filter_cons, ha, mapGet, hk] at ih ⊢
        rw [ih]

theorem mapGet_mapSet (m : GoMap) (key value k : GoString) :
    mapGet (mapSet m key value) k = if key = k then some value else mapGet m k := by
  unfold mapSet
  by_cases hk : key = k
  · simp [mapGet, hk]
  · simp only [mapGet, hk, if_false]
    rw [mapGet_filter_ne]
    simp [hk]

theorem mapGet_mapDelete (m : GoMap) (key k : GoString) :
    mapGet (mapDelete m key) k = if key = k then none else mapGet m k :=
  mapGet_filter_ne m key k

theorem mapDelete_of_absent (m : GoMap) (key : GoString) (h : mapGet m key = none) :
    mapDelete m key = m := by
  induction m with
  | nil => rfl
  | cons p m ih =>
    obtain ⟨a, b⟩ := p
    by_cases ha : a = key
    · simp [mapGet, ha] at h
    · simp only [mapGet, ha, if_false] at h
      simp only [mapDelete] at ih ⊢
      rw [List.filter_cons_of_pos (by simpa using ha), ih h]

theorem mapLen_eq_zero (m : GoMap) : mapLen m = 0 ↔ m = [] := by
  unfold mapLen
  rw [List.length_eq_zero, List.dedup_eq_nil, List.map_eq_nil_iff]

theorem mapLen_mapSet_ne_zero (m : GoMap) (key value : GoString) :
    mapLen (mapSet m key value) ≠ 0 := by
  rw [Ne, mapLen_eq_zero]
  simp [mapSet]

/-! ## Lemmas on `Trim` -/

theorem trimLeft_head (cutset s : List Char) :
    (trimLeft cutset s).head?.all (fun c => decide (c ∉ cutset)) = true := by
  induction s with
  | nil => simp [trimLeft]
  | cons c cs ih =>
    by_cases hc : c ∈ cutset
    · simpa [trimLeft, hc] using ih
    · simp [trimLeft, hc]

theorem trimLeft_suffix (cutset s : List Char) : trimLeft cutset s <:+ s := by
  induction s with
  | nil => simp [trimLeft]
  | cons c cs ih =>
    by_cases hc : c ∈ cutset
    · simp only [trimLeft, hc, if_true]
      exact ih.trans (List.suffix_cons c cs)
    · simp [trimLeft, hc]

theorem getLast?_of_suffix {t s : List Char} (h : t <:+ s) (ht : t ≠ []) :
    t.getLast? = s.getLast? := by
  obtain ⟨u, rfl⟩ := h
  rw [List.getLast?_append_of_ne_nil u ht]

theorem trimLeft_last (cutset s : List Char)
    (h : s.getLast?.all (fun c => decide (c ∉ cutset)) = true) :
    (trimLeft cutset s).getLast?.all (fun c => decide (c ∉ cutset)) = true := by
  by_cases ht : trimLeft cutset s = []
  · simp [ht]
  · rw [getLast?_of_suffix (trimLeft_suffix cutset s) ht]
    exact h

theorem trimRight_last (cutset s : List Char) :
    (trimRight cutset s).getLast?.all (fun c => decide (c ∉ cutset)) = true := by
  unfold trimRight
  rw [List.getLast?_reverse]
  exact trimLeft_head cutset s.reverse

theorem Trim_edgeFree (s cutset : GoString) :
    edgeFree cutset.data (Trim s cutset).data = true := by
  unfold edgeFree Trim
  simp only [Bool.and_eq_true]
  exact ⟨trimLeft_head _ _, trimLeft_last _ _ (trimRight_last _ _)⟩

theorem trimLeft_eq_self (cutset s : List Char) :
    trimLeft cutset s = s ↔ s.head?.all (fun c => decide (c ∉ cutset)) = true := by
  cases s with
  | nil => simp [trimLeft]
  | cons c cs =>
    by_cases hc : c ∈ cutset
    · simp only [trimLeft, hc, if_true, List.head?_cons, Option.all_some, not_true_eq_false]
      constructor
      · intro h
        have := (trimLeft_suffix cutset cs).length_le
        rw [h] at this
        simp at this
      · intro h
        simp at h
    · simp [trimLeft, hc]

theorem trimRight_eq_self (cutset s : List Char) :
    trimRight cutset s = s ↔ s.getLast?.all (fun c => decide (c ∉ cutset)) = true := by
  unfold trimRight
  rw [← List.head?_reverse]
  constructor
  · intro h
    have h2 : trimLeft cutset s.reverse = s.reverse := by
      have := congrArg List.reverse h
      rwa [List.reverse_reverse] at this
    exact (trimLeft_eq_self _ _).1 h2
  · intro h
    rw [(trimLeft_eq_self _ _).2 h, List.reverse_reverse]

theorem Trim_eq_self (s cutset : GoString) :
    Trim s cutset = s ↔ edgeFree cutset.data s.data = true := by
  unfold edgeFree
  rw [Bool.and_eq_true]
  constructor
  · intro h
    have he := Trim_edgeFree s cutset
    rw [h] at he
    unfold edgeFree at he
    rwa [Bool.and_eq_true] at he
  · rintro ⟨h1, h2⟩
    unfold Trim
    rw [(trimRight_eq_self _ _).2 h2, (trimLeft_eq_self _ _).2 h1]

/-! ## Lemmas on the getters -/

theorem String_override (env : Set) (os : OSEnv) (key d v : GoString)
    (h : mapGet? env.override key = some v) : env.String os key d = (v, true) := by
  simp [Set.String, h]

theorem String_os (env : Set) (os : OSEnv) (key d v : GoString)
    (h : mapGet? env.override key = none) (ho : LookupEnv os key = some v) :
    env.String os key d = (Trim v TrimCharacters, true) := by
  simp [Set.String, h, ho]

theorem String_file (env : Set) (os : OSEnv) (key d v : GoString)
    (h : mapGet? env.override key = none) (ho : LookupEnv os key = none)
    (hf : mapGet? env.fileData key = some v) :
    env.String os key d = (Trim v TrimCharacters, true) := by
  simp [Set.String, h, ho, hf]

theorem String_default (env : Set) (os : OSEnv) (key d : GoString)
    (h : mapGet? env.override key = none) (ho : LookupEnv os key = none)
    (hf : mapGet? env.fileData key = none) :
    env.String os key d = (Trim d TrimCharacters, false) := by
  simp [Set.String, h, ho, hf]

theorem String_found_iff (env : Set) (os : OSEnv) (key d : GoString) :
    (env.String os key d).2 = false ↔
      mapGet? env.override key = none ∧ LookupEnv os key = none ∧
        mapGet? env.fileData key = none := by
  cases h : mapGet? env.override key with
  | some v => simp [String_override env os key d v h]
  | none =>
    cases ho : LookupEnv os key with
    | some v => simp [String_os env os key d v h ho]
    | none =>
      cases hf : mapGet? env.fileData key with
      | some v => simp [String_file env os key d v h ho hf]
      | none => simp [String_default env os key d h ho hf]

/-- The getters `Int64`, `Int32` and `Bool` in terms of the pair `String` returns. -/
theorem Int64_eq (env : Set) (os : OSEnv) (key : GoString) (d : GoInt) :
    env.Int64 os key d =
      if (env.String os key "").2 = false then (d, some Error.ErrNotSet)
      else if (env.String os key "").1.length = 0 then (d, some Error.ErrEmpty)
      else if (ParseInt (env.String os key "").1 64).2 = none then
        ((ParseInt (env.String os key "").1 64).1, none)
      else (d, (ParseInt (env.String os key "").1 64).2) := by
  unfold Set.Int64
  rcases env.String os key "" with ⟨s, _ | _⟩
  · simp
  · by_cases hs : s.length = 0
    · simp [hs]
    · rcases hp : ParseInt s 64 with ⟨v, _ | e⟩ <;> simp [hs, hp]

theorem Int32_eq (env : Set) (os : OSEnv) (key : GoString) (d : GoInt) :
    env.Int32 os key d =
      if (env.String os key "").2 = false then (d, some Error.ErrNotSet)
      else if (env.String os key "").1.length = 0 then (d, some Error.ErrEmpty)
      else if (ParseInt (env.String os key "").1 32).2 = none then
        (wrapInt 32 (ParseInt (env.String os key "").1 32).1, none)
      else (d, (ParseInt (env.String os key "").1 32).2) := by
  unfold Set.Int32
  rcases env.String os key "" with ⟨s, _ | _⟩
  · simp
  · by_cases hs : s.length = 0
    · simp [hs]
    · rcases hp : ParseInt s 32 with ⟨v, _ | e⟩ <;> simp [hs, hp]

theorem Bool_eq (env : Set) (os : OSEnv) (key : GoString) (d : GoBool) :
    env.Bool os key d =
      if (env.String os key "").2 = false then (d, some Error.ErrNotSet)
      else if (env.String os key "").1.length = 0 then (d, some Error.ErrEmpty)
      else if (ParseBool (env.String os key "").1).2 = none then
        ((ParseBool (env.String os key "").1).1, none)
      else (d, (ParseBool (env.String os key "").1).2) := by
  unfold Set.Bool
  rcases env.String os key "" with ⟨s, _ | _⟩
  · simp
  · by_cases hs : s.length = 0
    · simp [hs]
    · rcases hp : ParseBool s with ⟨v, _ | e⟩ <;> simp [hs, hp]

theorem Int_eq (intSize : Nat) (env : Set) (os : OSEnv) (key : GoString) (d : GoInt) :
    env.Int intSize os key d =
      if (env.Int64 os key d).2 = none then
        if decide ((env.Int64 os key d).1 ≤ 0) = decide (wrapInt intSize (env.Int64 os key d).1 > 0)
        then (d, some Error.ErrOverflow)
        else (wrapInt intSize (env.Int64 os key d).1, none)
      else (d, (env.Int64 os key d).2) := by
  unfold Set.Int
  rcases env.Int64 os key d with ⟨v, _ | e⟩ <;> simp

theorem length_eq_zero_iff (s : GoString) : s.length = 0 ↔ s = "" := by
  constructor
  · intro h
    apply String.ext
    have : s.data.length = 0 := h
    exact List.length_eq_zero.1 this
  · rintro rfl
    rfl

theorem parseIntBody_err (s0 : GoString) (neg : Bool) (body : List Char) (bitSize : Nat)
    (e : Error) (h : (parseIntBody s0 neg body bitSize).2 = some e) :
    ∃ k, e = Error.NumError "ParseInt" s0 k := by
  unfold parseIntBody at h
  split at h
  · exact ⟨NumErrKind.ErrSyntax, by simpa [syntaxError] using h.symm⟩
  · simp only at h
    split_ifs at h
    · exact ⟨NumErrKind.ErrRange, by simpa [rangeError] using h.symm⟩
    · exact ⟨NumErrKind.ErrRange, by simpa [rangeError] using h.symm⟩

theorem ParseInt_err (s : GoString) (bitSize : Nat) (e : Error)
    (h : (ParseInt s bitSize).2 = some e) : ∃ k, e = Error.NumError "ParseInt" s k := by
  unfold ParseInt at h
  split at h
  · exact ⟨NumErrKind.ErrSyntax, by simpa [syntaxError] using h.symm⟩
  · split at h <;> exact parseIntBody_err _ _ _ _ e h

theorem ParseBool_err (s : GoString) (e : Error)
    (h : (ParseBool s).2 = some e) : e = Error.NumError "ParseBool" s NumErrKind.ErrSyntax := by
  unfold ParseBool at h
  split_ifs at h
  · simpa [syntaxError] using h.symm

theorem String_empty_iff (env : Set) (os : OSEnv) (key d : GoString) :
    ((env.String os key d).2 = true ∧ (env.String os key d).1 = "") ↔
      resolvesEmpty env os key := by
  unfold resolvesEmpty resolve
  cases h : mapGet? env.override key with
  | some v =>
    simp only [String_override env os key d v h, true_and]
    simp
  | none =>
    cases ho : LookupEnv os key with
    | some v => simp [String_os env os key d v h ho]
    | none =>
      cases hf : mapGet? env.fileData key with
      | some v => simp [String_file env os key d v h ho hf]
      | none => simp [String_default env os key d h ho hf]

/-- The error of a getter's common frame (not found, empty, parse) is
`ErrNotSet` exactly when the key was not found and `ErrEmpty` exactly when it
was found with an empty string, provided the parser returns neither. -/
theorem getter_frame_err {α : Type} (found : Bool) (s : GoString) (d v : α)
    (perr : Option Error)
    (hp : ∀ e, perr = some e → e ≠ Error.ErrNotSet ∧ e ≠ Error.ErrEmpty) :
    (((if found = false then (d, some Error.ErrNotSet)
        else if s.length = 0 then (d, some Error.ErrEmpty)
        else if perr = none then (v, none) else (d, perr)) : α × Option Error).2
        = some Error.ErrNotSet ↔ found = false) ∧
    (((if found = false then (d, some Error.ErrNotSet)
        else if s.length = 0 then (d, some Error.ErrEmpty)
        else if perr = none then (v, none) else (d, perr)) : α × Option Error).2
        = some Error.ErrEmpty ↔ found = true ∧ s = "") := by
  by_cases h1 : found = false
  · simp [h1]
  · have h1t : found = true := by simpa using h1
    by_cases h2 : s.length = 0
    · have := (length_eq_zero_iff s).1 h2
      simp [h1t, h2, this]
    · have hne : ¬ s = "" := fun h => h2 ((length_eq_zero_iff s).2 h)
      by_cases h3 : perr = none
      · simp [h1t, h2, h3, hne]
      · subst h1t
        simp only [h2, h3, if_false, hne, and_false, iff_false, Bool.true_eq_false]
        exact ⟨fun h => (hp _ h).1 rfl, fun h => (hp _ h).2 rfl⟩

theorem ParseInt_err_ne (s : GoString) (bitSize : Nat) (e : Error)
    (h : (ParseInt s bitSize).2 = some e) : e ≠ Error.ErrNotSet ∧ e ≠ Error.ErrEmpty := by
  obtain ⟨k, rfl⟩ := ParseInt_err s bitSize e h
  exact ⟨fun h => Error.noConfusion h, fun h => Error.noConfusion h⟩

theorem ParseBool_err_ne (s : GoString) (e : Error)
    (h : (ParseBool s).2 = some e) : e ≠ Error.ErrNotSet ∧ e ≠ Error.ErrEmpty := by
  rw [ParseBool_err s e h]
  exact ⟨fun h => Error.noConfusion h, fun h => Error.noConfusion h⟩

theorem Int64_err_iff (env : Set) (os : OSEnv) (key : GoString) (d : GoInt) :
    ((env.Int64 os key d).2 = some Error.ErrNotSet ↔ (env.String os key "").2 = false) ∧
    ((env.Int64 os key d).2 = some Error.ErrEmpty ↔
      (env.String os key "").2 = true ∧ (env.String os key "").1 = "") := by
  rw [Int64_eq]
  exact getter_frame_err _ _ _ _ _ (ParseInt_err_ne _ 64)

theorem Int32_err_iff (env : Set) (os : OSEnv) (key : GoString) (d : GoInt) :
    ((env.Int32 os key d).2 = some Error.ErrNotSet ↔ (env.String os key "").2 = false) ∧
    ((env.Int32 os key d).2 = some Error.ErrEmpty ↔
      (env.String os key "").2 = true ∧ (env.String os key "").1 = "") := by
  rw [Int32_eq]
  exact getter_frame_err _ _ _ _ _ (ParseInt_err_ne _ 32)

theorem Bool_err_iff (env : Set) (os : OSEnv) (key : GoString) (d : GoBool) :
    ((env.Bool os key d).2 = some Error.ErrNotSet ↔ (env.String os key "").2 = false) ∧
    ((env.Bool os key d).2 = some Error.ErrEmpty ↔
      (env.String os key "").2 = true ∧ (env.String os key "").1 = "") := by
  rw [Bool_eq]
  exact getter_frame_err _ _ _ _ _ (ParseBool_err_ne _)

theorem Int_err_iff (intSize : Nat) (env : Set) (os : OSEnv) (key : GoString) (d : GoInt) :
    ((env.Int intSize os key d).2 = some Error.ErrNotSet ↔
      (env.String os key "").2 = false) ∧
    ((env.Int intSize os key d).2 = some Error.ErrEmpty ↔
      (env.String os key "").2 = true ∧ (env.String os key "").1 = "") := by
  rw [← (Int64_err_iff env os key d).1, ← (Int64_err_iff env os key d).2, Int_eq]
  split_ifs with h1 h2 <;> simp [h1]

/-- What the getters do: each of `Int`, `Int32`, `Int64` and `Bool` fails
with `ErrNotSet` exactly when the key is absent from the override mapping,
the OS environment and the file mapping, and with `ErrEmpty` exactly when the
override mapping holds exactly the empty string for the key, or the key is
not in the override mapping and the value of the OS environment, else of the
file mapping, is empty after trimming. -/
theorem getters_NotSet_Empty (intSize : Nat) (env : Set) (os : OSEnv) (key : GoString)
    (d : GoInt) (b : GoBool) :
    ((env.Int intSize os key d).2 = some Error.ErrNotSet ↔ absentEverywhere env os key) ∧
    ((env.Int32 os key d).2 = some Error.ErrNotSet ↔ absentEverywhere env os key) ∧
    ((env.Int64 os key d).2 = some Error.ErrNotSet ↔ absentEverywhere env os key) ∧
    ((env.Bool os key b).2 = some Error.ErrNotSet ↔ absentEverywhere env os key) ∧
    ((env.Int intSize os key d).2 = some Error.ErrEmpty ↔ resolvesEmpty env os key) ∧
    ((env.Int32 os key d).2 = some Error.ErrEmpty ↔ resolvesEmpty env os key) ∧
    ((env.Int64 os key d).2 = some Error.ErrEmpty ↔ resolvesEmpty env os key) ∧
    ((env.Bool os key b).2 = some Error.ErrEmpty ↔ resolvesEmpty env os key) := by
  have hs := String_found_iff env os key ""
  have he := String_empty_iff env os key ""
  unfold absentEverywhere
  refine ⟨?_, ?_, ?_, ?_, ?_, ?_, ?_, ?_⟩
  · rw [← hs]; exact (Int_err_iff intSize env os key d).1
  · rw [← hs]; exact (Int32_err_iff env os key d).1
  · rw [← hs]; exact (Int64_err_iff env os key d).1
  · rw [← hs]; exact (Bool_err_iff env os key b).1
  · rw [← he]; exact (Int_err_iff intSize env os key d).2
  · rw [← he]; exact (Int32_err_iff env os key d).2
  · rw [← he]; exact (Int64_err_iff env os key d).2
  · rw [← he]; exact (Bool_err_iff env os key b).2

/-- What `String` does: the string it returns has no leading and no
trailing character of `TrimCharacters` whenever the key is not in the
override mapping, that is when the OS environment, the file mapping or the
default supplies it; a value of the override mapping leaves by the early
return, as stored. -/
theorem String_trimmed (env : Set) (os : OSEnv) (key d : GoString) :
    (mapGet? env.override key = none → isTrimmed (env.String os key d).1 = true) ∧
    (∀ v, mapGet? env.override key = some v → (env.String os key d).1 = v) := by
  constructor
  · intro h
    have : (env.String os key d).1 = Trim (env.String os key d).1 TrimCharacters := by
      cases ho : LookupEnv os key with
      | some v =>
        rw [String_os env os key d v h ho]
        exact ((Trim_eq_self _ _).2 (Trim_edgeFree v TrimCharacters)).symm
      | none =>
        cases hf : mapGet? env.fileData key with
        | some v =>
          rw [String_file env os key d v h ho hf]
          exact ((Trim_eq_self _ _).2 (Trim_edgeFree v TrimCharacters)).symm
        | none =>
          rw [String_default env os key d h ho hf]
          exact ((Trim_eq_self _ _).2 (Trim_edgeFree d TrimCharacters)).symm
    exact (Trim_eq_self _ _).1 this.symm
  · intro v h
    rw [String_override env os key d v h]

/-! ## Lemmas on the parsing of a line -/

theorem splitOnChar_ne_nil (sep : Char) (s : List Char) : splitOnChar sep s ≠ [] := by
  cases s with
  | nil => simp [splitOnChar]
  | cons c cs =>
    unfold splitOnChar
    split_ifs
    · simp
    · split <;> simp

theorem splitOnChar_of_not_mem (sep : Char) (s : List Char) (h : sep ∉ s) :
    splitOnChar sep s = [s] := by
  induction s with
  | nil => rfl
  | cons c cs ih =>
    have hc : c ≠ sep := fun e => h (e ▸ List.mem_cons_self _ _)
    have hcs : sep ∉ cs := fun e => h (List.mem_cons_of_mem _ e)
    simp [splitOnChar, hc, ih hcs]

theorem splitOnChar_append (sep : Char) (l r : List Char) (h : sep ∉ l) :
    splitOnChar sep (l ++ sep :: r) = l :: splitOnChar sep r := by
  induction l with
  | nil => simp [splitOnChar]
  | cons c cs ih =>
    have hc : c ≠ sep := fun e => h (e ▸ List.mem_cons_self _ _)
    have hcs : sep ∉ cs := fun e => h (List.mem_cons_of_mem _ e)
    simp [splitOnChar, hc, ih hcs]

theorem splitOnChar_singleton (sep : Char) (s p : List Char) (h : splitOnChar sep s = [p]) :
    s = p ∧ sep ∉ s := by
  by_cases hm : sep ∈ s
  · obtain ⟨l, r, rfl, hl⟩ := List.eq_append_cons_of_mem hm
    rw [splitOnChar_append sep l r hl] at h
    simp only [List.cons.injEq] at h
    exact absurd h.2 (splitOnChar_ne_nil sep r)
  · rw [splitOnChar_of_not_mem sep s hm] at h
    simp only [List.cons.injEq, and_true] at h
    exact ⟨h, hm⟩

/-- A sequence splits into exactly two parts when it holds exactly one
separator, the parts being what stands before and after it. -/
theorem splitOnChar_pair (sep : Char) (s p0 p1 : List Char) :
    splitOnChar sep s = [p0, p1] ↔ s = p0 ++ sep :: p1 ∧ sep ∉ p0 ∧ sep ∉ p1 := by
  constructor
  · intro h
    by_cases hm : sep ∈ s
    · obtain ⟨l, r, rfl, hl⟩ := List.eq_append_cons_of_mem hm
      rw [splitOnChar_append sep l r hl] at h
      simp only [List.cons.injEq] at h
      obtain ⟨rfl, hr⟩ := h
      obtain ⟨rfl, hr2⟩ := splitOnChar_singleton sep r p1 hr
      exact ⟨rfl, hl, hr2⟩
    · rw [splitOnChar_of_not_mem sep s hm] at h
      simp at h
  · rintro ⟨rfl, h0, h1⟩
    rw [splitOnChar_append sep p0 p1 h0, splitOnChar_of_not_mem sep p1 h1]

theorem trimLeft_concat (cutset l : List Char) (c : Char) :
    trimLeft cutset (l ++ [c]) =
      if trimLeft cutset l = [] then (if c ∈ cutset then [] else [c])
      else trimLeft cutset l ++ [c] := by
  induction l with
  | nil => simp [trimLeft]
  | cons a l ih =>
    by_cases ha : a ∈ cutset
    · simpa [trimLeft, ha] using ih
    · simp [trimLeft, ha]

theorem trimRight_cons (cutset cs : List Char) (c : Char) :
    trimRight cutset (c :: cs) =
      if trimRight cutset cs = [] then (if c ∈ cutset then [] else [c])
      else c :: trimRight cutset cs := by
  unfold trimRight
  rw [List.reverse_cons, trimLeft_concat]
  by_cases h : trimLeft cutset cs.reverse = []
  · by_cases hc : c ∈ cutset <;> simp [h, hc]
  · simp [h]

/-- Trimming the right end does not change the first character left after
trimming the left end. -/
theorem head?_trimLeft_trimRight (cutset s : List Char) :
    (trimLeft cutset (trimRight cutset s)).head? = (trimLeft cutset s).head? := by
  induction s with
  | nil => simp [trimRight, trimLeft]
  | cons c cs ih =>
    rw [trimRight_cons]
    by_cases hc : c ∈ cutset
    · by_cases ht : trimRight cutset cs = []
      · rw [ht] at ih
        simpa [ht, hc, trimLeft] using ih
      · simpa [ht, hc, trimLeft] using ih
    · by_cases ht : trimRight cutset cs = [] <;> simp [ht, hc, trimLeft]

theorem trimLeft_eq_dropWhile (cutset s : List Char) :
    trimLeft cutset s = s.dropWhile (fun c => decide (c ∈ cutset)) := by
  induction s with
  | nil => rfl
  | cons c cs ih =>
    by_cases hc : c ∈ cutset <;> simp [trimLeft, List.dropWhile, hc, ih]

theorem loadLine_eq (m : GoMap) (line : GoString) :
    loadLine m line =
      match parseLine line with
      | some kv => mapSet m kv.1 kv.2
      | none => m := by
  unfold loadLine parseLine
  split_ifs
  · rfl
  · rcases SplitEq line with _ | ⟨p0, _ | ⟨p1, _ | ⟨p2, t⟩⟩⟩ <;> rfl

theorem HasPrefix_hash (s : GoString) : HasPrefix s "#" = true ↔ s.data.head? = some '#' := by
  unfold HasPrefix
  have : ("#" : String).data = ['#'] := rfl
  rw [this]
  cases s.data with
  | nil => simp [List.isPrefixOf]
  | cons c cs =>
    simp only [List.isPrefixOf, List.head?_cons, Option.some.injEq, Bool.and_true,
      beq_iff_eq]
    exact eq_comm

theorem comment_iff (line : GoString) :
    HasPrefix (Trim line " \t") "#" = true ↔ isCommentLine line := by
  rw [HasPrefix_hash]
  unfold Trim isCommentLine
  simp only
  rw [head?_trimLeft_trimRight, trimLeft_eq_dropWhile]
  have hd : (" \t" : String).data = [' ', '\t'] := rfl
  have hf : (fun c => decide (c ∈ (" \t" : String).data)) =
      (fun c : Char => (decide (c = ' ') || decide (c = '\t'))) := by
    funext c
    rw [hd]
    simp
  rw [hf]

theorem SplitEq_pair (line p0 p1 : GoString) :
    SplitEq line = [p0, p1] ↔
      line.data = p0.data ++ '=' :: p1.data ∧ '=' ∉ p0.data ∧ '=' ∉ p1.data := by
  rw [← splitOnChar_pair]
  unfold SplitEq
  constructor
  · intro h
    have := congrArg (List.map String.data) h
    simpa [List.map_map, Function.comp_def] using this
  · intro h
    rw [h]
    rfl

theorem parseLine_eq_some_iff (line k v : GoString) :
    parseLine line = some (k, v) ↔ lineBinds line k v := by
  unfold parseLine lineBinds
  rw [← comment_iff]
  by_cases hc : HasPrefix (Trim line " \t") "#" = true
  · simp [hc]
  · have hc2 : HasPrefix (Trim line " \t") "#" = false := by simpa using hc
    rw [hc2]
    simp only [Bool.false_eq_true, if_false, not_false_eq_true, true_and]
    constructor
    · intro h
      rcases heq : SplitEq line with _ | ⟨p0, _ | ⟨p1, _ | ⟨p2, t⟩⟩⟩ <;> rw [heq] at h <;>
        simp only [Option.some.injEq, Prod.mk.injEq, reduceCtorEq] at h
      obtain ⟨h1, h2, h3⟩ := (SplitEq_pair line p0 p1).1 heq
      exact ⟨p0.data, p1.data, h1, h2, h3, h.1, h.2⟩
    · rintro ⟨l, r, h1, h2, h3, rfl, rfl⟩
      have := (SplitEq_pair line ⟨l⟩ ⟨r⟩).2 ⟨h1, h2, h3⟩
      rw [this]

theorem mapGet_loadLine (m : GoMap) (line k v : GoString) :
    mapGet (loadLine m line) k = some v ↔
      lineBinds line k v ∨ ((∀ v', ¬ lineBinds line k v') ∧ mapGet m k = some v) := by
  simp only [← parseLine_eq_some_iff]
  rw [loadLine_eq]
  cases hp : parseLine line with
  | none => simp
  | some kv =>
    obtain ⟨k', v'⟩ := kv
    simp only [mapGet_mapSet, Option.some.injEq, Prod.mk.injEq]
    by_cases hk : k' = k
    · subst hk
      simp
    · simp [hk]

/-- The file mapping after the scanning loop: a key maps to the value of the
last line that binds it, or to its earlier value when no line binds it. -/
theorem mapGet_foldl_loadLine (lines : List GoString) (m : GoMap) (k v : GoString) :
    mapGet (lines.foldl loadLine m) k = some v ↔
      (∃ pre line post, lines = pre ++ line :: post ∧ lineBinds line k v ∧
        ∀ l ∈ post, ∀ v', ¬ lineBinds l k v') ∨
      ((∀ l ∈ lines, ∀ v', ¬ lineBinds l k v') ∧ mapGet m k = some v) := by
  induction lines generalizing m with
  | nil => simp
  | cons a rest ih =>
    rw [List.foldl_cons, ih, mapGet_loadLine]
    constructor
    · rintro (⟨pre, line, post, rfl, hb, hn⟩ | ⟨hn, hb | ⟨hna, hm⟩⟩)
      · exact Or.inl ⟨a :: pre, line, post, rfl, hb, hn⟩
      · exact Or.inl ⟨[], a, rest, rfl, hb, hn⟩
      · exact Or.inr ⟨List.forall_mem_cons.2 ⟨hna, hn⟩, hm⟩
    · rintro (⟨pre, line, post, heq, hb, hn⟩ | ⟨hall, hm⟩)
      · cases pre with
        | nil =>
          simp only [List.nil_append, List.cons.injEq] at heq
          obtain ⟨rfl, rfl⟩ := heq
          exact Or.inr ⟨hn, Or.inl hb⟩
        | cons p pre =>
          simp only [List.cons_append, List.cons.injEq] at heq
          obtain ⟨rfl, rfl⟩ := heq
          exact Or.inl ⟨pre, line, post, rfl, hb, hn⟩
      · exact Or.inr ⟨fun l hl => hall l (List.mem_cons_of_mem _ hl),
          Or.inr ⟨hall a (List.mem_cons_self _ _), hm⟩⟩

theorem scanTokens_err (raws : List (List Char)) :
    (scanTokens raws).2 = none ∨ (scanTokens raws).2 = some Error.ErrTooLong := by
  induction raws with
  | nil => exact Or.inl rfl
  | cons raw rest ih =>
    unfold scanTokens
    split_ifs
    · exact Or.inr rfl
    · exact ih

theorem scanFile_err_ne (content : GoString) (readErr : Option GoString) :
    (scanFile content readErr).2 ≠ some Error.ErrLoadFileAlready := by
  unfold scanFile
  rcases hs : scanTokens (rawLines content.data []) with ⟨lines, _ | e⟩
  · cases readErr <;> simp
  · have := scanTokens_err (rawLines content.data [])
    rw [hs] at this
    rcases this with h | h
    · simp at h
    · simp only [Option.some.injEq] at h
      subst h
      simp

theorem LoadFile_opened (env : Set) (content : GoString) (readErr : Option GoString)
    (h : alreadyLoaded env = false) :
    env.LoadFile (DotEnvFile.opened content readErr) =
      ({ env with fileData := some ((scanFile content readErr).1.foldl loadLine []) },
        (scanFile content readErr).2) := by
  simp [Set.LoadFile, h]

theorem LoadFile_guarded (env : Set) (file : DotEnvFile) (h : alreadyLoaded env = true) :
    env.LoadFile file = (env, some Error.ErrLoadFileAlready) := by
  simp [Set.LoadFile, h]

theorem loadLine_ne_nil (m : GoMap) (line : GoString) :
    loadLine m line ≠ [] ↔ m ≠ [] ∨ ∃ k v, lineBinds line k v := by
  simp only [← parseLine_eq_some_iff]
  rw [loadLine_eq]
  cases hp : parseLine line with
  | none => simp
  | some kv =>
    simp only [mapSet, ne_eq, reduceCtorEq, not_false_eq_true, Option.some.injEq, true_iff]
    exact Or.inr ⟨kv.1, kv.2, rfl⟩

/-- The loop leaves a non-empty mapping exactly when it started from one or
some line is accepted. -/
theorem foldl_loadLine_ne_nil (lines : List GoString) (m : GoMap) :
    lines.foldl loadLine m ≠ [] ↔ m ≠ [] ∨ ∃ line ∈ lines, ∃ k v, lineBinds line k v := by
  induction lines generalizing m with
  | nil => simp
  | cons a rest ih =>
    rw [List.foldl_cons, ih, loadLine_ne_nil]
    simp only [List.mem_cons, exists_eq_or_imp]
    exact or_assoc

theorem alreadyLoaded_iff (env : Set) :
    alreadyLoaded env = true ↔
      (∃ f, env.fileData = some f ∧ f ≠ []) ∧ env.override ≠ none := by
  unfold alreadyLoaded
  rcases env with ⟨_ | f, _ | o⟩ <;> simp [mapLen_eq_zero]

/-- `UnSet` of a key held by the override or the file mapping: nil, the key
gone from both mappings, the OS environment untouched. -/
theorem UnSet_present (env : Set) (os : OSEnv) (key : GoString)
    (h : mapGet? env.override key ≠ none ∨ mapGet? env.fileData key ≠ none) :
    (env.UnSet os key).2.2 = none ∧
      mapGet? (env.UnSet os key).1.override key = none ∧
      mapGet? (env.UnSet os key).1.fileData key = none ∧
      (env.UnSet os key).2.1 = os := by
  rcases env with ⟨_ | f, _ | o⟩
  · simp [mapGet?] at h
  · cases ho : mapGet o key <;>
      simp_all [Set.UnSet, mapGet?, mapGet_mapDelete]
  · cases hf : mapGet f key <;>
      simp_all [Set.UnSet, mapGet?, mapGet_mapDelete]
  · cases ho : mapGet o key <;> cases hf : mapGet f key <;>
      simp_all [Set.UnSet, mapGet?, mapGet_mapDelete]

/-! ## Lemmas on integer conversion -/

theorem wrapInt_64_range (x : Int) : -2 ^ 63 ≤ wrapInt 64 x ∧ wrapInt 64 x < 2 ^ 63 := by
  unfold wrapInt
  norm_num
  omega

theorem wrapInt_64_of_range (x : Int) (h1 : -2 ^ 63 ≤ x) (h2 : x < 2 ^ 63) :
    wrapInt 64 x = x := by
  unfold wrapInt
  norm_num at h1 h2 ⊢
  omega

theorem wrapInt_32_of_range (x : Int) (h1 : -2 ^ 31 ≤ x) (h2 : x < 2 ^ 31) :
    wrapInt 32 x = x := by
  unfold wrapInt
  norm_num at h1 h2 ⊢
  omega

theorem parseIntBody_range (s0 : GoString) (neg : Bool) (body : List Char) (v : Int)
    (h : parseIntBody s0 neg body 64 = (v, none)) : -2 ^ 63 ≤ v ∧ v < 2 ^ 63 := by
  unfold parseIntBody at h
  split at h
  · simp at h
  · simp only at h
    split_ifs at h
    · simp at h
    · simp at h
    · simp only [Prod.mk.injEq, and_true] at h
      rw [← h]
      exact wrapInt_64_range _
    · simp only [Prod.mk.injEq, and_true] at h
      rw [← h]
      exact wrapInt_64_range _

theorem ParseInt_64_range (s : GoString) (v : Int) (h : ParseInt s 64 = (v, none)) :
    -2 ^ 63 ≤ v ∧ v < 2 ^ 63 := by
  unfold ParseInt at h
  split at h
  · simp at h
  · split at h <;> exact parseIntBody_range _ _ _ v h

theorem Int64_range (env : Set) (os : OSEnv) (key : GoString) (d : GoInt)
    (h : (env.Int64 os key d).2 = none) :
    -2 ^ 63 ≤ (env.Int64 os key d).1 ∧ (env.Int64 os key d).1 < 2 ^ 63 := by
  rw [Int64_eq] at h ⊢
  split_ifs at h ⊢ with h1 h2 h3
  · exact ParseInt_64_range _ _ (Prod.ext rfl h3)
  · exact absurd h h3

theorem Int64_err_ne_overflow (env : Set) (os : OSEnv) (key : GoString) (d : GoInt) :
    (env.Int64 os key d).2 ≠ some Error.ErrOverflow := by
  rw [Int64_eq]
  split_ifs with h1 h2 h3
  · simp
  · simp
  · simp
  · intro h
    obtain ⟨k, hk⟩ := ParseInt_err _ 64 _ h
    cases hk

theorem applySets_fileData (calls : List (GoBool × GoString × GoString)) (env : Set)
    (os : OSEnv) : (applySets env os calls).1.fileData = env.fileData := by
  induction calls generalizing env os with
  | nil => rfl
  | cons call rest ih =>
    unfold applySets
    rw [ih]
    unfold Set.Set
    split_ifs <;> rfl

/-! ## Lemmas on `ParseInt` -/

theorem decValue_ge (ds : List Char) (acc : Nat) : acc ≤ decValue ds acc := by
  induction ds generalizing acc with
  | nil => exact le_refl _
  | cons c cs ih =>
    have h : acc * 10 + (c.toNat - 48) ≤ decValue (c :: cs) acc :=
      ih (acc * 10 + (c.toNat - 48))
    omega

theorem decValue_concat (ds : List Char) (c : Char) (acc : Nat) :
    decValue (ds ++ [c]) acc = decValue ds acc * 10 + (c.toNat - 48) := by
  induction ds generalizing acc with
  | nil => rfl
  | cons a as ih => exact ih (acc * 10 + (a.toNat - 48))

theorem digitVal_nondigit (c : Char) (hc : ¬ isDecDigit c) :
    digitVal c = none ∨ ∃ d, digitVal c = some d ∧ d ≥ 10 := by
  unfold digitVal
  unfold isDecDigit at hc
  rw [if_neg hc]
  split_ifs with h
  · exact Or.inr ⟨_, rfl, Nat.le_add_left _ _⟩
  · exact Or.inl rfl

theorem digitVal_digit (c : Char) (hc : isDecDigit c) : digitVal c = some (c.toNat - 48) := by
  unfold digitVal
  unfold isDecDigit at hc
  rw [if_pos hc]

theorem parseUintLoop_nondigit (s0 : GoString) (maxVal : Nat) (c : Char) (cs : List Char)
    (acc : Nat) (hc : ¬ isDecDigit c) :
    parseUintLoop s0 maxVal (c :: cs) acc = (0, some (syntaxError "ParseUint" s0)) := by
  rcases digitVal_nondigit c hc with h | ⟨d, h, hd⟩
  · simp only [parseUintLoop, h]
  · simp only [parseUintLoop, h, hd, if_true]

theorem parseUintLoop_digit (s0 : GoString) (maxVal : Nat) (c : Char) (cs : List Char)
    (acc : Nat) (hc : isDecDigit c) :
    parseUintLoop s0 maxVal (c :: cs) acc =
      if acc ≥ cutoff10 then (maxVal, some (rangeError "ParseUint" s0))
      else if (acc * 10 % 2 ^ 64 + (c.toNat - 48)) % 2 ^ 64 < acc * 10 % 2 ^ 64 ∨
          (acc * 10 % 2 ^ 64 + (c.toNat - 48)) % 2 ^ 64 > maxVal then
        (maxVal, some (rangeError "ParseUint" s0))
      else parseUintLoop s0 maxVal cs ((acc * 10 % 2 ^ 64 + (c.toNat - 48)) % 2 ^ 64) := by
  have hd : ¬ (c.toNat - 48 ≥ 10) := by
    unfold isDecDigit at hc
    omega
  simp only [parseUintLoop, digitVal_digit c hc, hd, if_false]

/-- The digit loop succeeds exactly on a sequence of decimal digits whose
value does not exceed `maxVal`, and then returns that value. -/
theorem parseUintLoop_spec (s0 : GoString) (maxVal : Nat) (hmax : maxVal < 2 ^ 64)
    (ds : List Char) (acc v : Nat) (hacc : acc ≤ maxVal) :
    parseUintLoop s0 maxVal ds acc = (v, none) ↔
      (∀ c ∈ ds, isDecDigit c) ∧ decValue ds acc ≤ maxVal ∧ v = decValue ds acc := by
  induction ds generalizing acc with
  | nil =>
    simp only [parseUintLoop, decValue, Prod.mk.injEq, and_true, List.not_mem_nil,
      false_imp_iff, implies_true, true_and]
    constructor
    · intro h
      exact ⟨hacc, h.symm⟩
    · intro h
      exact h.2.symm
  | cons c cs ih =>
    by_cases hc : isDecDigit c
    · rw [parseUintLoop_digit s0 maxVal c cs acc hc]
      have hge := decValue_ge cs (acc * 10 + (c.toNat - 48))
      have hdv : decValue (c :: cs) acc = decValue cs (acc * 10 + (c.toNat - 48)) := rfl
      have hd : c.toNat - 48 < 10 := by
        unfold isDecDigit at hc
        omega
      rw [hdv]
      simp only [List.mem_cons, forall_eq_or_imp, hc, true_and]
      norm_num [cutoff10] at hmax ⊢
      by_cases h1 : 1844674407370955162 ≤ acc
      · rw [if_pos h1]
        constructor
        · intro h
          simp at h
        · rintro ⟨_, h, _⟩
          omega
      · rw [if_neg h1]
        have e1 : acc * 10 % 18446744073709551616 = acc * 10 := by omega
        rw [e1]
        by_cases h2 : acc * 10 + (c.toNat - 48) < 18446744073709551616
        · have e2 : (acc * 10 + (c.toNat - 48)) % 18446744073709551616
              = acc * 10 + (c.toNat - 48) := by omega
          rw [e2]
          by_cases h3 : maxVal < acc * 10 + (c.toNat - 48)
          · rw [if_pos (Or.inr h3)]
            constructor
            · intro h
              simp at h
            · rintro ⟨_, h, _⟩
              omega
          · rw [if_neg (by omega)]
            exact ih (acc * 10 + (c.toNat - 48)) (by omega)
        · rw [if_pos (Or.inl (by omega))]
          constructor
          · intro h
            simp at h
          · rintro ⟨_, h, _⟩
            omega
    · rw [parseUintLoop_nondigit s0 maxVal c cs acc hc]
      constructor
      · intro h
        simp at h
      · rintro ⟨h, _⟩
        exact absurd (h c (List.mem_cons_self _ _)) hc

/-- The three shapes of what the digit loop returns. -/
theorem parseUintLoop_shape (s0 : GoString) (maxVal : Nat) (ds : List Char) (acc : Nat) :
    (parseUintLoop s0 maxVal ds acc).2 = none ∨
      parseUintLoop s0 maxVal ds acc = (0, some (syntaxError "ParseUint" s0)) ∨
      parseUintLoop s0 maxVal ds acc = (maxVal, some (rangeError "ParseUint" s0)) := by
  induction ds generalizing acc with
  | nil => exact Or.inl rfl
  | cons c cs ih =>
    by_cases hc : isDecDigit c
    · rw [parseUintLoop_digit s0 maxVal c cs acc hc]
      split_ifs
      · exact Or.inr (Or.inr rfl)
      · exact Or.inr (Or.inr rfl)
      · exact ih _
    · rw [parseUintLoop_nondigit s0 maxVal c cs acc hc]
      exact Or.inr (Or.inl rfl)

theorem wrapInt_64_nat (v : Nat) (h : v < 9223372036854775808) : wrapInt 64 (v : Int) = v := by
  unfold wrapInt
  norm_num
  omega

theorem wrapInt_64_neg_nat (v : Nat) (h : v ≤ 9223372036854775808) :
    wrapInt 64 (-(wrapInt 64 (v : Int))) = -(v : Int) := by
  unfold wrapInt
  norm_num
  omega

theorem mk_eq_empty (l : List Char) : (String.mk l = "") ↔ l = [] := by
  constructor
  · intro h
    exact congrArg String.data h
  · rintro rfl
    rfl

/-- `ParseUint` succeeds exactly on a non-empty sequence of decimal digits
whose value fits `bitSize` bits. -/
theorem ParseUint_spec (body : List Char) (bitSize v : Nat) (hb : bitSize = 32 ∨ bitSize = 64) :
    ParseUint ⟨body⟩ bitSize = (v, none) ↔
      body ≠ [] ∧ (∀ c ∈ body, isDecDigit c) ∧ decValue body 0 ≤ 2 ^ bitSize - 1 ∧
        v = decValue body 0 := by
  unfold ParseUint
  by_cases hnil : body = []
  · subst hnil
    simp
  · have hne : ¬ (String.mk body = "") := fun h => hnil ((mk_eq_empty body).1 h)
    rw [if_neg hne]
    have hmax : 2 ^ bitSize - 1 < 2 ^ 64 := by
      rcases hb with rfl | rfl <;> norm_num
    rw [parseUintLoop_spec _ _ hmax body 0 v (Nat.zero_le _)]
    simp [hnil]

theorem ParseUint_shape (body : List Char) (bitSize : Nat) :
    (ParseUint ⟨body⟩ bitSize).2 = none ∨
      ParseUint ⟨body⟩ bitSize = (0, some (syntaxError "ParseUint" ⟨body⟩)) ∨
      ParseUint ⟨body⟩ bitSize = (2 ^ bitSize - 1, some (rangeError "ParseUint" ⟨body⟩)) := by
  unfold ParseUint
  split_ifs
  · exact Or.inr (Or.inl rfl)
  · exact parseUintLoop_shape _ _ _ _

/-- `parseIntBody` succeeds exactly on a non-empty sequence of decimal
digits whose signed value fits `bitSize` bits, and returns that value. -/
theorem parseIntBody_spec (s0 : GoString) (neg : Bool) (body : List Char) (bitSize : Nat)
    (n : Int) (hb : bitSize = 32 ∨ bitSize = 64) :
    parseIntBody s0 neg body bitSize = (n, none) ↔
      body ≠ [] ∧ (∀ c ∈ body, isDecDigit c) ∧
        n = (if neg then -(decValue body 0 : Int) else (decValue body 0 : Int)) ∧
        -2 ^ (bitSize - 1) ≤ n ∧ n < 2 ^ (bitSize - 1) := by
  rcases ParseUint_shape body bitSize with h | h | h
  · obtain ⟨v, hv⟩ : ∃ v, ParseUint ⟨body⟩ bitSize = (v, none) :=
      ⟨(ParseUint ⟨body⟩ bitSize).1, Prod.ext rfl h⟩
    obtain ⟨h1, h2, h3, h4⟩ := (ParseUint_spec body bitSize v hb).1 hv
    simp only [parseIntBody, hv]
    rw [← h4] at h3 ⊢
    have h2t : (∀ c ∈ body, isDecDigit c) ↔ True := iff_true_intro h2
    simp only [h1, h2t, ne_eq, not_false_eq_true, true_and]
    clear h2t h2 h1 h hv
    rcases hb with rfl | rfl <;> cases neg <;>
      simp only [Bool.not_false, Bool.not_true, Bool.true_and, Bool.false_and,
        decide_eq_true_eq, Bool.false_eq_true, if_false, if_true] <;>
      norm_num at h3 ⊢
    · by_cases hc : 2147483648 ≤ v
      · rw [if_pos hc]
        simp only [Prod.mk.injEq, reduceCtorEq, and_false, false_iff]
        omega
      · rw [if_neg hc, wrapInt_64_nat v (by omega)]
        simp only [Prod.mk.injEq, and_true]
        show ((v : Int) = n) ↔ _
        constructor <;> intro hh <;> omega
    · by_cases hc : 2147483648 < v
      · rw [if_pos hc]
        simp only [Prod.mk.injEq, reduceCtorEq, and_false, false_iff]
        omega
      · rw [if_neg hc, wrapInt_64_neg_nat v (by omega)]
        simp only [Prod.mk.injEq, and_true]
        show (-(v : Int) = n) ↔ _
        constructor <;> intro hh <;> omega
    · by_cases hc : 9223372036854775808 ≤ v
      · rw [if_pos hc]
        simp only [Prod.mk.injEq, reduceCtorEq, and_false, false_iff]
        omega
      · rw [if_neg hc, wrapInt_64_nat v (by omega)]
        simp only [Prod.mk.injEq, and_true]
        show ((v : Int) = n) ↔ _
        constructor <;> intro hh <;> omega
    · by_cases hc : 9223372036854775808 < v
      · rw [if_pos hc]
        simp only [Prod.mk.injEq, reduceCtorEq, and_false, false_iff]
        omega
      · rw [if_neg hc, wrapInt_64_neg_nat v (by omega)]
        simp only [Prod.mk.injEq, and_true]
        show (-(v : Int) = n) ↔ _
        constructor <;> intro hh <;> omega
  · have hno : ¬ (body ≠ [] ∧ (∀ c ∈ body, isDecDigit c) ∧
        decValue body 0 ≤ 2 ^ bitSize - 1) := by
      rintro ⟨h1, h2, h3⟩
      have := (ParseUint_spec body bitSize _ hb).2 ⟨h1, h2, h3, rfl⟩
      rw [h] at this
      simp at this
    simp only [parseIntBody, h, syntaxError]
    simp only [Prod.mk.injEq, reduceCtorEq, and_false, false_iff]
    rintro ⟨h1, h2, h3, h4, h5⟩
    apply hno
    refine ⟨h1, h2, ?_⟩
    rcases hb with rfl | rfl <;> cases neg <;> simp at h3 <;> norm_num at h4 h5 ⊢ <;> omega
  · have hno : ¬ (body ≠ [] ∧ (∀ c ∈ body, isDecDigit c) ∧
        decValue body 0 ≤ 2 ^ bitSize - 1) := by
      rintro ⟨h1, h2, h3⟩
      have := (ParseUint_spec body bitSize _ hb).2 ⟨h1, h2, h3, rfl⟩
      rw [h] at this
      simp at this
    have herr : (parseIntBody s0 neg body bitSize).2 ≠ none := by
      simp only [parseIntBody, h, rangeError]
      rcases hb with rfl | rfl <;> cases neg <;> simp
    constructor
    · intro hh
      rw [hh] at herr
      exact absurd rfl herr
    · rintro ⟨h1, h2, h3, h4, h5⟩
      exfalso
      apply hno
      refine ⟨h1, h2, ?_⟩
      rcases hb with rfl | rfl <;> cases neg <;> simp at h3 <;> norm_num at h4 h5 ⊢ <;> omega

/-- `ParseInt(s, 10, bitSize)` succeeds exactly on an optionally signed
base-10 digit string whose value fits `bitSize` bits, and returns that value. -/
theorem ParseInt_spec (s : GoString) (bitSize : Nat) (n : Int)
    (hb : bitSize = 32 ∨ bitSize = 64) :
    ParseInt s bitSize = (n, none) ↔
      denotesDecimal s n ∧ -2 ^ (bitSize - 1) ≤ n ∧ n < 2 ^ (bitSize - 1) := by
  have hplus : ¬ isDecDigit '+' := by decide
  have hminus : ¬ isDecDigit '-' := by decide
  unfold ParseInt denotesDecimal
  by_cases hs : s = ""
  · subst hs
    rw [if_pos rfl]
    constructor
    · intro h
      simp at h
    · rintro ⟨⟨digits, hne, _, h | h | h⟩, _⟩
      · exact absurd h.1.symm hne
      · exact absurd h.1 (by simp)
      · exact absurd h.1 (by simp)
  · rw [if_neg hs]
    split
    · rename_i r hr
      rw [parseIntBody_spec s false r bitSize n hb, hr]
      constructor
      · rintro ⟨h1, h2, h3, h4, h5⟩
        exact ⟨⟨r, h1, h2, Or.inr (Or.inl ⟨rfl, by simpa using h3⟩)⟩, h4, h5⟩
      · rintro ⟨⟨digits, hne, hd, h | h | h⟩, h4, h5⟩
        · exact absurd (hd '+' (by rw [← h.1]; simp)) hplus
        · have : r = digits := by simpa using h.1
          subst this
          exact ⟨hne, hd, by simpa using h.2, h4, h5⟩
        · simp at h
    · rename_i r hr
      rw [parseIntBody_spec s true r bitSize n hb, hr]
      constructor
      · rintro ⟨h1, h2, h3, h4, h5⟩
        exact ⟨⟨r, h1, h2, Or.inr (Or.inr ⟨rfl, by simpa using h3⟩)⟩, h4, h5⟩
      · rintro ⟨⟨digits, hne, hd, h | h | h⟩, h4, h5⟩
        · exact absurd (hd '-' (by rw [← h.1]; simp)) hminus
        · simp at h
        · have : r = digits := by simpa using h.1
          subst this
          exact ⟨hne, hd, by simpa using h.2, h4, h5⟩
    · rename_i r hp hm
      rw [parseIntBody_spec s false s.data bitSize n hb]
      constructor
      · rintro ⟨h1, h2, h3, h4, h5⟩
        exact ⟨⟨s.data, h1, h2, Or.inl ⟨rfl, by simpa using h3⟩⟩, h4, h5⟩
      · rintro ⟨⟨digits, hne, hd, h | h | h⟩, h4, h5⟩
        · rw [h.1]
          exact ⟨hne, hd, by simpa using h.2, h4, h5⟩
        · exact absurd h.1 (hp digits)
        · exact absurd h.1 (hm digits)

/-! ## Lemmas on the decimal rendering -/

theorem digitChar_toNat (d : Nat) (h : d < 10) : (digitChar d).toNat = 48 + d := by
  interval_cases d <;> rfl

theorem natDigits_spec (fuel n : Nat) (h : n < fuel) :
    natDigits fuel n ≠ [] ∧ (∀ c ∈ natDigits fuel n, isDecDigit c) ∧
      decValue (natDigits fuel n) 0 = n := by
  induction fuel generalizing n with
  | zero => omega
  | succ fuel ih =>
    unfold natDigits
    by_cases hn : n < 10
    · rw [if_pos hn]
      have ht := digitChar_toNat n hn
      refine ⟨by simp, ?_, ?_⟩
      · intro c hc
        simp only [List.mem_singleton] at hc
        subst hc
        unfold isDecDigit
        omega
      · show 0 * 10 + ((digitChar n).toNat - 48) = n
        omega
    · rw [if_neg hn]
      obtain ⟨_, h2, h3⟩ := ih (n / 10) (by omega)
      have ht := digitChar_toNat (n % 10) (by omega)
      refine ⟨by simp, ?_, ?_⟩
      · intro c hc
        rcases List.mem_append.1 hc with hc | hc
        · exact h2 c hc
        · simp only [List.mem_singleton] at hc
          subst hc
          unfold isDecDigit
          omega
      · rw [decValue_concat, h3]
        omega

theorem renderInt_denotes (n : Int) : denotesDecimal (renderInt n) n := by
  obtain ⟨h1, h2, h3⟩ := natDigits_spec (n.natAbs + 1) n.natAbs (by omega)
  refine ⟨natDigits (n.natAbs + 1) n.natAbs, h1, h2, ?_⟩
  unfold renderInt
  by_cases hn : n < 0
  · rw [if_pos hn, h3]
    exact Or.inr (Or.inr ⟨rfl, by omega⟩)
  · rw [if_neg hn, h3]
    exact Or.inl ⟨rfl, by omega⟩

/-- Parsing the canonical rendering of a 64-bit integer gives it back. -/
theorem ParseInt_renderInt (n : Int) (h1 : -2 ^ 63 ≤ n) (h2 : n < 2 ^ 63) :
    ParseInt (renderInt n) 64 = (n, none) :=
  (ParseInt_spec (renderInt n) 64 n (Or.inr rfl)).2 ⟨renderInt_denotes n, h1, h2⟩

theorem edgeFree_of_forall (cutset l : List Char) (h : ∀ c ∈ l, c ∉ cutset) :
    edgeFree cutset l = true := by
  unfold edgeFree
  rw [Bool.and_eq_true]
  constructor
  · cases hh : l.head? with
    | none => rfl
    | some c =>
      have := h c (List.mem_of_mem_head? hh)
      simpa using this
  · cases hl : l.getLast? with
    | none => rfl
    | some c =>
      have := h c (List.mem_of_getLast?_eq_some hl)
      simpa using this

theorem not_trim_of_digit (c : Char) (h : isDecDigit c ∨ c = '-') :
    c ∉ TrimCharacters.data := by
  have hd : TrimCharacters.data = [' ', '\n', '\t'] := rfl
  rw [hd]
  intro hc
  simp only [List.mem_cons, List.mem_singleton, List.not_mem_nil, or_false] at hc
  unfold isDecDigit at h
  rcases hc with rfl | rfl | rfl <;> rcases h with h | h <;> revert h <;> decide

theorem Trim_renderInt (n : Int) : Trim (renderInt n) TrimCharacters = renderInt n := by
  rw [Trim_eq_self]
  apply edgeFree_of_forall
  obtain ⟨_, h2, _⟩ := natDigits_spec (n.natAbs + 1) n.natAbs (by omega)
  intro c hc
  apply not_trim_of_digit
  unfold renderInt at hc
  split_ifs at hc
  · simp only [List.mem_cons] at hc
    rcases hc with rfl | hc
    · exact Or.inr rfl
    · exact Or.inl (h2 c hc)
  · exact Or.inl (h2 c hc)

/-- `String` returns a resolved value as it is when trimming does not change it. -/
theorem String_of_resolve (env : Set) (os : OSEnv) (key d v : GoString)
    (h : resolve env os key = some v) (ht : Trim v TrimCharacters = v) :
    env.String os key d = (v, true) := by
  unfold resolve at h
  cases ho : mapGet? env.override key with
  | some w =>
    rw [ho] at h
    simp only [Option.some.injEq] at h
    subst h
    exact String_override env os key d w ho
  | none =>
    rw [ho] at h
    cases hos : LookupEnv os key with
    | some w =>
      rw [hos] at h
      simp only [Option.some.injEq] at h
      subst h
      rw [String_os env os key d w ho hos, ht]
    | none =>
      rw [hos] at h
      simp only at h
      rw [String_file env os key d v ho hos h, ht]

theorem resolve_none_iff (env : Set) (os : OSEnv) (key : GoString) :
    resolve env os key = none ↔ absentEverywhere env os key := by
  unfold resolve absentEverywhere
  cases mapGet? env.override key <;> cases LookupEnv os key <;> simp

theorem Int64_found (env : Set) (os : OSEnv) (key s : GoString) (d : GoInt)
    (hs : env.String os key "" = (s, true)) (hne : s ≠ "") :
    env.Int64 os key d =
      if (ParseInt s 64).2 = none then ((ParseInt s 64).1, none) else (d, (ParseInt s 64).2) := by
  have hl : ¬ s.length = 0 := fun h => hne ((length_eq_zero_iff s).1 h)
  rw [Int64_eq, hs]
  simp [hl]

theorem Int32_found (env : Set) (os : OSEnv) (key s : GoString) (d : GoInt)
    (hs : env.String os key "" = (s, true)) (hne : s ≠ "") :
    env.Int32 os key d =
      if (ParseInt s 32).2 = none then (wrapInt 32 (ParseInt s 32).1, none)
      else (d, (ParseInt s 32).2) := by
  have hl : ¬ s.length = 0 := fun h => hne ((length_eq_zero_iff s).1 h)
  rw [Int32_eq, hs]
  simp [hl]

theorem Int_of_Int64_ok (intSize : Nat) (env : Set) (os : OSEnv) (key : GoString) (d v : GoInt)
    (h : env.Int64 os key d = (v, none)) (hw : wrapInt intSize v = v) :
    env.Int intSize os key d = (v, none) := by
  rw [Int_eq, h]
  simp only [if_true, hw]
  by_cases hv : v ≤ 0
  · have : ¬ v > 0 := not_lt.mpr hv
    simp [hv, this]
  · have : v > 0 := not_le.mp hv
    simp [hv, this]

theorem Int_of_Int64_err (intSize : Nat) (env : Set) (os : OSEnv) (key : GoString)
    (d x : GoInt) (e : Error) (h : env.Int64 os key d = (x, some e)) :
    env.Int intSize os key d = (d, some e) := by
  rw [Int_eq, h]
  simp

theorem renderInt_ne_empty (n : Int) : renderInt n ≠ "" := by
  obtain ⟨h1, _, _⟩ := natDigits_spec (n.natAbs + 1) n.natAbs (by omega)
  unfold renderInt
  split_ifs
  · intro h
    have := congrArg String.data h
    simp at this
  · intro h
    exact h1 (congrArg String.data h)

/-- For a key that resolves to a non-empty string `s`, `Int64` succeeds
exactly when `s` denotes a decimal of the 64-bit range, and otherwise returns
the default with the error of `ParseInt`. -/
theorem Int64_parses (env : Set) (os : OSEnv) (key s : GoString) (d : GoInt)
    (hs : env.String os key "" = (s, true)) (hne : s ≠ "") :
    (∀ m : Int, env.Int64 os key d = (m, none) ↔
      denotesDecimal s m ∧ -2 ^ 63 ≤ m ∧ m < 2 ^ 63) ∧
    ((¬ ∃ m : Int, denotesDecimal s m ∧ -2 ^ 63 ≤ m ∧ m < 2 ^ 63) →
      ∃ k, env.Int64 os key d = (d, some (Error.NumError "ParseInt" s k))) := by
  have hspec : ∀ m : Int, ParseInt s 64 = (m, none) ↔
      denotesDecimal s m ∧ -2 ^ 63 ≤ m ∧ m < 2 ^ 63 := by
    intro m
    have := ParseInt_spec s 64 m (Or.inr rfl)
    norm_num at this ⊢
    exact this
  rw [Int64_found env os key s d hs hne]
  constructor
  · intro m
    constructor
    · intro h
      by_cases he : (ParseInt s 64).2 = none
      · rw [if_pos he] at h
        have hp := (hspec (ParseInt s 64).1).1 (Prod.ext rfl he)
        have hn : (ParseInt s 64).1 = m := congrArg Prod.fst h
        rw [hn] at hp
        exact hp
      · rw [if_neg he] at h
        exact absurd (congrArg Prod.snd h) he
    · intro h
      rw [(hspec m).2 h]
      rfl
  · intro hno
    have he : (ParseInt s 64).2 ≠ none := by
      intro he
      exact hno ⟨_, (hspec (ParseInt s 64).1).1 (Prod.ext rfl he)⟩
    rw [if_neg he]
    obtain ⟨e, hee⟩ := Option.ne_none_iff_exists'.1 he
    obtain ⟨k, hk⟩ := ParseInt_err s 64 e hee
    exact ⟨k, by rw [hee, hk]⟩

/-! ## Lemmas on objects and the store -/

theorem copyMap_get (m : GoMap) (k : GoString) : mapGet (copyMap m) k = mapGet m k := by
  induction m with
  | nil => rfl
  | cons p m ih =>
    obtain ⟨a, b⟩ := p
    show mapGet (mapSet (copyMap m) a b) k = mapGet ((a, b) :: m) k
    rw [mapGet_mapSet, ih]
    rfl

theorem String_congr (a b : Set) (os : OSEnv) (key d : GoString) (h : sameContents a b) :
    a.String os key d = b.String os key d := by
  unfold Set.String
  rw [h.2.2.2 key, h.2.2.1 key]

theorem String_os_congr (env : Set) (os1 os2 : OSEnv) (key d : GoString)
    (h : LookupEnv os1 key = LookupEnv os2 key) :
    env.String os1 key d = env.String os2 key d := by
  unfold Set.String
  rw [h]

theorem LookupEnv_Unsetenv_ne (os : OSEnv) (k key : GoString) (h : key ≠ k) :
    LookupEnv (Unsetenv os k).1 key = LookupEnv os key := by
  unfold LookupEnv Unsetenv
  simp only [mapGet_mapDelete]
  have hk : ¬ k = key := fun hk => h hk.symm
  simp only [hk, if_false]

/-- What `Clone` gives: a new object whose maps are fresh copies, allocated
above every earlier address, the store below being untouched. -/
theorem Clone_spec (e : SetObj) (h : Heap) (ha : e.allocated h) :
    (e.Clone h).1.allocated (e.Clone h).2 ∧
      e.allocated (e.Clone h).2 ∧
      e.disjoint (e.Clone h).1 ∧
      (∀ a, (e.Clone h).1.fileData = some a → (e.Clone h).1.override ≠ some a) ∧
      e.view (e.Clone h).2 = e.view h ∧
      sameContents ((e.Clone h).1.view (e.Clone h).2) (e.view h) := by
  obtain ⟨hf, ho⟩ := ha
  rcases e with ⟨_ | f, _ | o⟩
  · refine ⟨⟨?_, ?_⟩, ⟨?_, ?_⟩, ?_, ?_, rfl, ?_⟩ <;>
      simp [SetObj.Clone, SetObj.disjoint, sameContents, SetObj.view]
  · have := ho o rfl
    refine ⟨⟨?_, ?_⟩, ⟨?_, ?_⟩, ?_, ?_, ?_, ?_⟩
    · simp [SetObj.Clone]
    · simp [SetObj.Clone, Heap.make, Heap.put]
    · simp [SetObj.Clone]
    · simp only [SetObj.Clone, Heap.make, Heap.put, Option.some.injEq, forall_eq']
      omega
    · simp only [SetObj.disjoint, SetObj.Clone, Heap.make, false_or, Option.some.injEq,
        reduceCtorEq]
      intro a h1 h2
      omega
    · simp [SetObj.Clone]
    · simp only [SetObj.view, SetObj.Clone, Heap.make, Heap.put, Option.map_none',
        Option.map_some', Function.update_apply]
      have : ¬ o = h.next := by omega
      simp [this]
    · simp only [sameContents, SetObj.view, SetObj.Clone, Heap.make, Heap.put,
        Option.map_none', Option.map_some', Function.update_apply, mapGet?]
      have : ¬ o = h.next := by omega
      simp [this, copyMap_get]
  · have := hf f rfl
    refine ⟨⟨?_, ?_⟩, ⟨?_, ?_⟩, ?_, ?_, ?_, ?_⟩
    · simp [SetObj.Clone, Heap.make, Heap.put]
    · simp [SetObj.Clone]
    · simp only [SetObj.Clone, Heap.make, Heap.put, Option.some.injEq, forall_eq']
      omega
    · simp [SetObj.Clone]
    · simp only [SetObj.disjoint, SetObj.Clone, Heap.make, or_false, Option.some.injEq,
        reduceCtorEq]
      intro a h1 h2
      omega
    · simp [SetObj.Clone]
    · simp only [SetObj.view, SetObj.Clone, Heap.make, Heap.put, Option.map_none',
        Option.map_some', Function.update_apply]
      have : ¬ f = h.next := by omega
      simp [this]
    · simp only [sameContents, SetObj.view, SetObj.Clone, Heap.make, Heap.put,
        Option.map_none', Option.map_some', Function.update_apply, mapGet?]
      have : ¬ f = h.next := by omega
      simp [this, copyMap_get]
  · have h1 := hf f rfl
    have h2 := ho o rfl
    have n1 : ¬ f = h.next := by omega
    have n2 : ¬ o = h.next := by omega
    have n3 : ¬ f = h.next + 1 := by omega
    have n4 : ¬ o = h.next + 1 := by omega
    refine ⟨⟨?_, ?_⟩, ⟨?_, ?_⟩, ?_, ?_, ?_, ?_⟩
    · simp only [SetObj.Clone, Heap.make, Heap.put, Option.some.injEq, forall_eq']
      omega
    · simp [SetObj.Clone, Heap.make, Heap.put]
    · simp only [SetObj.Clone, Heap.make, Heap.put, Option.some.injEq, forall_eq']
      omega
    · simp only [SetObj.Clone, Heap.make, Heap.put, Option.some.injEq, forall_eq']
      omega
    · simp only [SetObj.disjoint, SetObj.Clone, Heap.make, Heap.put, Option.some.injEq]
      intro a h3 h4
      omega
    · simp [SetObj.Clone, Heap.make, Heap.put]
    · simp only [SetObj.view, SetObj.Clone, Heap.make, Heap.put, Option.map_some',
        Function.update_apply]
      simp [n1, n2, n3, n4]
    · simp only [sameContents, SetObj.view, SetObj.Clone, Heap.make, Heap.put,
        Option.map_some', Function.update_apply, mapGet?]
      simp [n1, n2, n3, n4, copyMap_get]

theorem view_eq_of_maps (y : SetObj) (h h2 : Heap)
    (hm : ∀ a, (y.fileData = some a ∨ y.override = some a) → h2.maps a = h.maps a) :
    y.view h2 = y.view h := by
  rcases y with ⟨_ | f, _ | o⟩
  · rfl
  · simp [SetObj.view, hm o (Or.inr rfl)]
  · simp [SetObj.view, hm f (Or.inl rfl)]
  · simp [SetObj.view, hm f (Or.inl rfl), hm o (Or.inr rfl)]

/-- `Set` on an object writes only to the map its override field refers to,
or to a fresh one. -/
theorem SetObj_Set_frame (x : SetObj) (h : Heap) (os : OSEnv) (g : GoBool) (k v : GoString)
    (a : Nat) (ha : a < h.next) (hne : x.override ≠ some a) :
    (x.Set h os g k v).2.1.maps a = h.maps a := by
  rcases x with ⟨f, _ | o⟩
  · have : ¬ a = h.next := by omega
    cases g <;> simp [SetObj.Set, Heap.make, Heap.put, Function.update_apply, this]
  · have : ¬ a = o := fun e => hne (by rw [e])
    cases g <;> simp [SetObj.Set, Heap.put, Function.update_apply, this]

/-- `UnSet` on an object writes only to the maps its fields refer to. -/
theorem SetObj_UnSet_frame (x : SetObj) (h : Heap) (os : OSEnv) (k : GoString)
    (a : Nat) (hf : x.fileData ≠ some a) (ho : x.override ≠ some a) :
    (x.UnSet h os k).2.1.maps a = h.maps a := by
  rcases x with ⟨_ | f, _ | o⟩
  · simp [SetObj.UnSet]
  · have n1 : ¬ a = o := fun e => ho (by rw [e])
    cases hk : mapGet (h.maps o) k <;>
      simp [SetObj.UnSet, Heap.put, Function.update_apply, hk, n1]
  · have n1 : ¬ a = f := fun e => hf (by rw [e])
    cases hk : mapGet (h.maps f) k <;>
      simp [SetObj.UnSet, Heap.put, Function.update_apply, hk, n1]
  · have n1 : ¬ a = o := fun e => ho (by rw [e])
    have n2 : ¬ a = f := fun e => hf (by rw [e])
    cases hk : mapGet (h.maps o) k with
    | none =>
      cases hk2 : mapGet (h.maps f) k <;>
        simp [SetObj.UnSet, Heap.put, Function.update_apply, hk, hk2, n2]
    | some w =>
      cases hk2 : mapGet ((h.put o (mapDelete (h.maps o) k)).maps f) k <;>
        simp [SetObj.UnSet, Heap.put, Function.update_apply, hk, n1, n2] <;>
        simp [Heap.put, Function.update_apply] at hk2 <;>
        simp [hk2, n1, n2]

/-- An operation on one object leaves the accessor of a disjoint allocated
object as it was. -/
theorem frame_view (x y : SetObj) (h : Heap) (os : OSEnv) (g : GoBool) (k v : GoString)
    (hy : y.allocated h) (hd : x.disjoint y) :
    y.view (x.Set h os g k v).2.1 = y.view h ∧ y.view (x.UnSet h os k).2.1 = y.view h := by
  constructor
  · apply view_eq_of_maps
    intro a hya
    apply SetObj_Set_frame
    · rcases hya with hya | hya
      · exact hy.1 a hya
      · exact hy.2 a hya
    · intro hx
      exact hd a (Or.inr hx) hya
  · apply view_eq_of_maps
    intro a hya
    apply SetObj_UnSet_frame
    · intro hx
      exact hd a (Or.inl hx) hya
    · intro hx
      exact hd a (Or.inr hx) hya

theorem disjoint_symm (x y : SetObj) (h : x.disjoint y) : y.disjoint x := by
  intro a hy hx
  exact h a hx hy

/-- `Set` on an object does to the accessor it stands for what `Set.Set`
does, provided its two fields do not refer to the same map. -/
theorem SetObj_Set_view (x : SetObj) (h : Heap) (os : OSEnv) (g : GoBool) (k v : GoString)
    (hx : x.allocated h) (hs : ∀ a, x.fileData = some a → x.override ≠ some a) :
    (x.Set h os g k v).1.view (x.Set h os g k v).2.1 = ((x.view h).Set os g k v).1 ∧
      (x.Set h os g k v).2.2 = ((x.view h).Set os g k v).2 := by
  rcases x with ⟨_ | f, _ | o⟩
  · cases g <;>
      simp [SetObj.Set, Set.Set, SetObj.view, Heap.make, Heap.put, Function.update_apply]
  · cases g <;>
      simp [SetObj.Set, Set.Set, SetObj.view, Heap.make, Heap.put, Function.update_apply]
  · have h1 := hx.1 f rfl
    have n1 : ¬ f = h.next := by omega
    cases g <;>
      simp [SetObj.Set, Set.Set, SetObj.view, Heap.make, Heap.put, Function.update_apply, n1]
  · have n1 : ¬ f = o := fun e => hs f rfl (by rw [e])
    cases g <;>
      simp [SetObj.Set, Set.Set, SetObj.view, Heap.make, Heap.put, Function.update_apply, n1]

/-- `UnSet` on an object does to the accessor it stands for what
`Set.UnSet` does, provided its two fields do not refer to the same map. -/
theorem SetObj_UnSet_view (x : SetObj) (h : Heap) (os : OSEnv) (k : GoString)
    (hs : ∀ a, x.fileData = some a → x.override ≠ some a) :
    (x.UnSet h os k).1.view (x.UnSet h os k).2.1 = ((x.view h).UnSet os k).1 ∧
      (x.UnSet h os k).2.2 = ((x.view h).UnSet os k).2 := by
  rcases x with ⟨_ | f, _ | o⟩
  · simp [SetObj.UnSet, Set.UnSet, SetObj.view]
  · cases hk : mapGet (h.maps o) k <;>
      simp [SetObj.UnSet, Set.UnSet, SetObj.view, Heap.put, Function.update_apply, hk]
  · cases hk : mapGet (h.maps f) k <;>
      simp [SetObj.UnSet, Set.UnSet, SetObj.view, Heap.put, Function.update_apply, hk]
  · have n1 : ¬ f = o := fun e => hs f rfl (by rw [e])
    have n2 : ¬ o = f := fun e => n1 e.symm
    cases hk : mapGet (h.maps o) k <;> cases hk2 : mapGet (h.maps f) k <;>
      simp [SetObj.UnSet, Set.UnSet, SetObj.view, Heap.put, Function.update_apply, hk, hk2,
        n1, n2]

theorem SetObj_Set_os (x : SetObj) (h : Heap) (os : OSEnv) (g : GoBool) (k v : GoString) :
    (x.Set h os g k v).2.2 = if g then Setenv os k v else (os, none) := by
  cases g <;> rfl

theorem SetObj_UnSet_os (x : SetObj) (h : Heap) (os : OSEnv) (k : GoString) :
    (x.UnSet h os k).2.2.1 = os ∨ (x.UnSet h os k).2.2.1 = (Unsetenv os k).1 := by
  unfold SetObj.UnSet
  simp only
  split_ifs
  · exact Or.inl rfl
  · exact Or.inr rfl

theorem LookupEnv_Setenv (os : OSEnv) (k v : GoString) (h : (Setenv os k v).2 = none) :
    LookupEnv (Setenv os k v).1 k = some v := by
  unfold Setenv at h ⊢
  split_ifs at h ⊢ with hc
  have hk : ¬ k = "" := fun hk => hc (Or.inl hk)
  simp [LookupEnv, hk, mapGet_mapSet]

theorem SetObj_Set_shape (x : SetObj) (h : Heap) (os : OSEnv) (g : GoBool) (k v : GoString) :
    (x.override = none →
      (x.Set h os g k v).1 = ⟨x.fileData, some h.next⟩ ∧
        (x.Set h os g k v).2.1.next = h.next + 1) ∧
    (∀ o, x.override = some o →
      (x.Set h os g k v).1 = x ∧ (x.Set h os g k v).2.1.next = h.next) := by
  rcases x with ⟨f, _ | o⟩
  · cases g <;> simp [SetObj.Set, Heap.make, Heap.put]
  · cases g <;> simp [SetObj.Set, Heap.put]

theorem SetObj_UnSet_shape (x : SetObj) (h : Heap) (os : OSEnv) (k : GoString) :
    (x.UnSet h os k).1 = x ∧ (x.UnSet h os k).2.1.next = h.next := by
  rcases x with ⟨_ | f, _ | o⟩
  · simp [SetObj.UnSet]
  · cases hk : mapGet (h.maps o) k <;> simp [SetObj.UnSet, Heap.put, hk]
  · cases hk : mapGet (h.maps f) k <;> simp [SetObj.UnSet, Heap.put, hk]
  · cases hk : mapGet (h.maps o) k with
    | none => cases hk2 : mapGet (h.maps f) k <;> simp [SetObj.UnSet, Heap.put, hk, hk2]
    | some w =>
      cases hk2 : mapGet ((h.put o (mapDelete (h.maps o) k)).maps f) k <;>
        simp [SetObj.UnSet, hk, hk2] <;> simp [Heap.put]

/-- `UnSet` of a key that is in neither mapping of the object: the object
and the store are as before, and the call is `os.Unsetenv`. -/
theorem SetObj_UnSet_absent (x : SetObj) (h : Heap) (os : OSEnv) (k : GoString)
    (h1 : mapGet? (x.view h).override k = none) (h2 : mapGet? (x.view h).fileData k = none) :
    x.UnSet h os k = (x, h, Unsetenv os k) := by
  rcases x with ⟨_ | f, _ | o⟩ <;>
    simp only [SetObj.view, mapGet?, Option.map] at h1 h2 <;>
    simp [SetObj.UnSet, h1, h2]

theorem LookupEnv_Unsetenv_self (os : OSEnv) (k : GoString) :
    LookupEnv (Unsetenv os k).1 k = none := by
  simp [Unsetenv, LookupEnv, mapGet_mapDelete]

theorem independent_symm (e c : SetObj) (h : Heap) (hi : independent e c h) :
    independent c e h :=
  ⟨hi.2.1, hi.1, disjoint_symm e c hi.2.2⟩

/-- A `Set` on one of two independent objects leaves them independent. -/
theorem SetObj_Set_independent (x y : SetObj) (h : Heap) (os : OSEnv) (g : GoBool)
    (k v : GoString) (hi : independent x y h) :
    independent (x.Set h os g k v).1 y (x.Set h os g k v).2.1 := by
  obtain ⟨hx, hy, hd⟩ := hi
  obtain ⟨hnone, hsome⟩ := SetObj_Set_shape x h os g k v
  cases ho : x.override with
  | none =>
    obtain ⟨e1, e2⟩ := hnone ho
    rw [e1]
    refine ⟨⟨?_, ?_⟩, ⟨?_, ?_⟩, ?_⟩
    · intro a ha
      have := hx.1 a ha
      omega
    · intro a ha
      simp only [Option.some.injEq] at ha
      omega
    · intro a ha
      have := hy.1 a ha
      omega
    · intro a ha
      have := hy.2 a ha
      omega
    · intro a ha hya
      rcases ha with ha | ha
      · exact hd a (Or.inl ha) hya
      · simp only [Option.some.injEq] at ha
        rcases hya with hya | hya
        · have := hy.1 a hya
          omega
        · have := hy.2 a hya
          omega
  | some o =>
    obtain ⟨e1, e2⟩ := hsome o ho
    rw [e1]
    refine ⟨⟨?_, ?_⟩, ⟨?_, ?_⟩, hd⟩
    · intro a ha
      have := hx.1 a ha
      omega
    · intro a ha
      have := hx.2 a ha
      omega
    · intro a ha
      have := hy.1 a ha
      omega
    · intro a ha
      have := hy.2 a ha
      omega

/-- The map that `Set` makes for a nil override mapping is a new one: the
two fields of the object stay on different maps. -/
theorem SetObj_Set_separate (x : SetObj) (h : Heap) (os : OSEnv) (g : GoBool)
    (k v : GoString) (hx : x.allocated h) (hs : x.separate) :
    (x.Set h os g k v).1.separate := by
  obtain ⟨hnone, hsome⟩ := SetObj_Set_shape x h os g k v
  cases ho : x.override with
  | none =>
    rw [(hnone ho).1]
    intro a ha hb
    simp only [Option.some.injEq] at hb
    have := hx.1 a ha
    omega
  | some o =>
    rw [(hsome o ho).1]
    exact hs

/-- An `UnSet` on one of two independent objects leaves them independent. -/
theorem SetObj_UnSet_independent (x y : SetObj) (h : Heap) (os : OSEnv) (k : GoString)
    (hi : independent x y h) :
    independent (x.UnSet h os k).1 y (x.UnSet h os k).2.1 := by
  obtain ⟨hx, hy, hd⟩ := hi
  obtain ⟨e1, e2⟩ := SetObj_UnSet_shape x h os k
  rw [e1]
  refine ⟨⟨?_, ?_⟩, ⟨?_, ?_⟩, hd⟩
  · intro a ha
    have := hx.1 a ha
    omega
  · intro a ha
    have := hx.2 a ha
    omega
  · intro a ha
    have := hy.1 a ha
    omega
  · intro a ha
    have := hy.2 a ha
    omega

/-- A call on one of two independent objects: they stay independent and the
accessor of the other object is as before. -/
theorem call_independent (x y : SetObj) (h : Heap) (os : OSEnv) (call : Call)
    (hi : independent x y h) :
    independent (x.call h os call).1 y (x.call h os call).2.1 ∧
      y.view (x.call h os call).2.1 = y.view h := by
  cases call with
  | set g k v =>
    exact ⟨SetObj_Set_independent x y h os g k v hi,
      (frame_view x y h os g k v hi.2.1 hi.2.2).1⟩
  | unset k =>
    exact ⟨SetObj_UnSet_independent x y h os k hi,
      (frame_view x y h os false k "" hi.2.1 hi.2.2).2⟩

/-- A call on an object whose two fields are on different maps: they stay
so, and the object, the process environment and the error are those of the
same call on its accessor. -/
theorem call_view (x : SetObj) (h : Heap) (os : OSEnv) (call : Call)
    (hx : x.allocated h) (hs : x.separate) :
    (x.call h os call).1.separate ∧
      (x.call h os call).1.view (x.call h os call).2.1 = ((x.view h).call os call).1 ∧
      (x.call h os call).2.2 = ((x.view h).call os call).2 := by
  cases call with
  | set g k v =>
    exact ⟨SetObj_Set_separate x h os g k v hx hs,
      (SetObj_Set_view x h os g k v hx hs).1, (SetObj_Set_view x h os g k v hx hs).2⟩
  | unset k =>
    refine ⟨?_, (SetObj_UnSet_view x h os k hs).1, (SetObj_UnSet_view x h os k hs).2⟩
    show (x.UnSet h os k).1.separate
    rw [(SetObj_UnSet_shape x h os k).1]
    exact hs

/-- Two independent objects stay independent through any interleaving of
calls, and an object whose fields are on different maps keeps them so. -/
theorem runObjs_independent (ops : List (Bool × Call)) (e c : SetObj) (h : Heap) (os : OSEnv)
    (hi : independent e c h) :
    independent (runObjs e c h os ops).1 (runObjs e c h os ops).2.1
        (runObjs e c h os ops).2.2.1 ∧
      (e.separate → (runObjs e c h os ops).1.separate) ∧
      (c.separate → (runObjs e c h os ops).2.1.separate) := by
  induction ops generalizing e c h os with
  | nil => exact ⟨hi, id, id⟩
  | cons step rest ih =>
    unfold runObjs
    by_cases hs : step.1 = true
    · rw [if_pos hs]
      obtain ⟨h1, _⟩ := call_independent c e h os step.2 (independent_symm e c h hi)
      obtain ⟨i1, i2, i3⟩ :=
        ih e (c.call h os step.2).1 (c.call h os step.2).2.1 (c.call h os step.2).2.2.1
          (independent_symm _ _ _ h1)
      exact ⟨i1, i2, fun hc => i3 (call_view c h os step.2 hi.2.1 hc).1⟩
    · rw [if_neg hs]
      obtain ⟨h1, _⟩ := call_independent e c h os step.2 hi
      obtain ⟨i1, i2, i3⟩ :=
        ih (e.call h os step.2).1 c (e.call h os step.2).2.1 (e.call h os step.2).2.2.1 h1
      exact ⟨i1, fun he => i2 (call_view e h os step.2 hi.1 he).1, i3⟩

/-- Any interleaving of calls on two independent objects acts on their
accessors as on two accessors that share only the process environment. -/
theorem runObjs_refines (ops : List (Bool × Call)) (e c : SetObj) (h : Heap) (os : OSEnv)
    (hi : independent e c h) (hse : e.separate) (hsc : c.separate) :
    ((runObjs e c h os ops).1.view (runObjs e c h os ops).2.2.1,
      (runObjs e c h os ops).2.1.view (runObjs e c h os ops).2.2.1,
      (runObjs e c h os ops).2.2.2) = runSets (e.view h) (c.view h) os ops := by
  induction ops generalizing e c h os with
  | nil => rfl
  | cons step rest ih =>
    unfold runObjs runSets
    by_cases hs : step.1 = true
    · rw [if_pos hs, if_pos hs]
      obtain ⟨h1, h2⟩ := call_independent c e h os step.2 (independent_symm e c h hi)
      obtain ⟨h5, h3, h4⟩ := call_view c h os step.2 hi.2.1 hsc
      have := ih e (c.call h os step.2).1 (c.call h os step.2).2.1 (c.call h os step.2).2.2.1
        (independent_symm _ _ _ h1) hse h5
      rw [← congrArg Prod.fst h4, ← h3, ← h2]
      exact this
    · rw [if_neg hs, if_neg hs]
      obtain ⟨h1, h2⟩ := call_independent e c h os step.2 hi
      obtain ⟨h5, h3, h4⟩ := call_view e h os step.2 hi.1 hse
      have := ih (e.call h os step.2).1 c (e.call h os step.2).2.1 (e.call h os step.2).2.2.1
        h1 h5 hsc
      rw [← congrArg Prod.fst h4, ← h3, ← h2]
      exact this

/-- Calls made on the second object only: the accessor of the first is as
it was. -/
theorem runObjs_only_second (ops : List (Bool × Call)) (e c : SetObj) (h : Heap) (os : OSEnv)
    (hi : independent e c h) (hall : ∀ step ∈ ops, step.1 = true) :
    (runObjs e c h os ops).1.view (runObjs e c h os ops).2.2.1 = e.view h := by
  induction ops generalizing c h os with
  | nil => rfl
  | cons step rest ih =>
    unfold runObjs
    rw [if_pos (hall step (List.mem_cons_self _ _))]
    obtain ⟨h1, h2⟩ := call_independent c e h os step.2 (independent_symm e c h hi)
    rw [ih _ _ _ (independent_symm _ _ _ h1) (fun s hs => hall s (List.mem_cons_of_mem _ hs)),
      h2]

/-- Calls made on the first object only: the accessor of the second is as
it was. -/
theorem runObjs_only_first (ops : List (Bool × Call)) (e c : SetObj) (h : Heap) (os : OSEnv)
    (hi : independent e c h) (hall : ∀ step ∈ ops, step.1 = false) :
    (runObjs e c h os ops).2.1.view (runObjs e c h os ops).2.2.1 = c.view h := by
  induction ops generalizing e h os with
  | nil => rfl
  | cons step rest ih =>
    unfold runObjs
    have hf := hall step (List.mem_cons_self _ _)
    rw [if_neg (by simp [hf])]
    obtain ⟨h1, h2⟩ := call_independent e c h os step.2 hi
    rw [ih _ _ _ h1 (fun s hs => hall s (List.mem_cons_of_mem _ hs)), h2]

/-! ## Claims -/

/-- C1: `Set.String` resolves in the fixed order override, OS environment,
file mapping, default. A key of the override mapping yields the override
value with `true`, whatever the other tiers hold; otherwise a key of the
OS environment yields its trimmed value with `true`; otherwise a key of the
file mapping yields its trimmed value with `true`; and the flag is `false`
exactly when none of the three tiers has the key. -/
theorem String_precedence (env : Set) (os : OSEnv) (key d : GoString) :
    (∀ v, mapGet? env.override key = some v → env.String os key d = (v, true)) ∧
    (mapGet? env.override key = none → ∀ v, LookupEnv os key = some v →
      env.String os key d = (Trim v TrimCharacters, true)) ∧
    (mapGet? env.override key = none → LookupEnv os key = none →
      ∀ v, mapGet? env.fileData key = some v →
        env.String os key d = (Trim v TrimCharacters, true)) ∧
    ((env.String os key d).2 = false ↔
      mapGet? env.override key = none ∧ LookupEnv os key = none ∧
        mapGet? env.fileData key = none) :=
  ⟨fun v h => String_override env os key d v h,
   fun h v ho => String_os env os key d v h ho,
   fun h ho v hf => String_file env os key d v h ho hf,
   String_found_iff env os key d⟩

/-- Witness of C1: a key held by all three tiers resolves to its override value. -/
theorem String_precedence_witness :
    Set.String ⟨some [("K", "file")], some [("K", " ov ")]⟩ [("K", "os")] "K" "d"
      = (" ov ", true) :=
  (String_precedence ⟨some [("K", "file")], some [("K", " ov ")]⟩ [("K", "os")] "K" "d").1
    " ov " (by decide)

/-- C2: after `Set(false, k, v)` the call returned nil, `String(k, "")`
yields exactly `(v, true)`, and the OS environment is the one before the
call, so that every platform lookup gives the same result as before. -/
theorem Set_local_roundtrip (env : Set) (os : OSEnv) (k v : GoString) :
    (env.Set os false k v).2.2 = none ∧
    (env.Set os false k v).1.String (env.Set os false k v).2.1 k "" = (v, true) ∧
    (env.Set os false k v).2.1 = os ∧
    ∀ key, LookupEnv (env.Set os false k v).2.1 key = LookupEnv os key := by
  refine ⟨rfl, ?_, rfl, fun _ => rfl⟩
  apply String_override
  simp [Set.Set, mapGet?, mapGet_mapSet]

/-- C3: each of `Int`, `Int32`, `Int64` and `Bool` returns the caller's
default whenever it returns a non-nil error; a value other than the default
comes with a nil error only. -/
theorem getters_default_on_error (intSize : Nat) (env : Set) (os : OSEnv) (key : GoString)
    (d : GoInt) (b : GoBool) :
    ((env.Int intSize os key d).2 ≠ none → (env.Int intSize os key d).1 = d) ∧
    ((env.Int32 os key d).2 ≠ none → (env.Int32 os key d).1 = d) ∧
    ((env.Int64 os key d).2 ≠ none → (env.Int64 os key d).1 = d) ∧
    ((env.Bool os key b).2 ≠ none → (env.Bool os key b).1 = b) ∧
    ((env.Int intSize os key d).1 ≠ d → (env.Int intSize os key d).2 = none) ∧
    ((env.Int32 os key d).1 ≠ d → (env.Int32 os key d).2 = none) ∧
    ((env.Int64 os key d).1 ≠ d → (env.Int64 os key d).2 = none) ∧
    ((env.Bool os key b).1 ≠ b → (env.Bool os key b).2 = none) := by
  have hInt : (env.Int intSize os key d).2 ≠ none → (env.Int intSize os key d).1 = d := by
    rw [Int_eq]
    split_ifs <;> simp_all
  have hInt32 : (env.Int32 os key d).2 ≠ none → (env.Int32 os key d).1 = d := by
    rw [Int32_eq]
    split_ifs <;> simp_all
  have hInt64 : (env.Int64 os key d).2 ≠ none → (env.Int64 os key d).1 = d := by
    rw [Int64_eq]
    split_ifs <;> simp_all
  have hBool : (env.Bool os key b).2 ≠ none → (env.Bool os key b).1 = b := by
    rw [Bool_eq]
    split_ifs <;> simp_all
  exact ⟨hInt, hInt32, hInt64, hBool,
    fun h => by_contra fun h2 => h (hInt h2), fun h => by_contra fun h2 => h (hInt32 h2),
    fun h => by_contra fun h2 => h (hInt64 h2), fun h => by_contra fun h2 => h (hBool h2)⟩

/-- Witness of C3: a value that does not parse makes `Int` return the default. -/
theorem getters_default_on_error_witness :
    (Set.Int 64 ⟨none, none⟩ [("N", "abc")] "N" 5).1 = 5 :=
  (getters_default_on_error 64 ⟨none, none⟩ [("N", "abc")] "N" 5 true).1 (by decide)

/-- C4: the getters do not report `ErrEmpty` for a value of the override
mapping that is empty after trimming. After `Set(false, "K", " ")` the key
resolves to a single space, which is empty once trimmed, yet `Int64`, `Int`,
`Int32` and `Bool` return the default with the syntax error of the parser;
the same value held by the OS environment or by the file mapping gives
`ErrEmpty`. -/
theorem ErrEmpty_override_not_trimmed :
    resolve (zeroSet.Set [] false "K" " ").1 [] "K" = some " " ∧
      Trim " " TrimCharacters = "" ∧
      (zeroSet.Set [] false "K" " ").1.Int64 [] "K" 0
        = (0, some (Error.NumError "ParseInt" " " NumErrKind.ErrSyntax)) ∧
      (zeroSet.Set [] false "K" " ").1.Int 64 [] "K" 0
        = (0, some (Error.NumError "ParseInt" " " NumErrKind.ErrSyntax)) ∧
      (zeroSet.Set [] false "K" " ").1.Int32 [] "K" 0
        = (0, some (Error.NumError "ParseInt" " " NumErrKind.ErrSyntax)) ∧
      (zeroSet.Set [] false "K" " ").1.Bool [] "K" false
        = (false, some (Error.NumError "ParseBool" " " NumErrKind.ErrSyntax)) ∧
      Set.Int64 zeroSet [("K", " ")] "K" 0 = (0, some Error.ErrEmpty) ∧
      Set.Int64 ⟨some [("K", " ")], none⟩ [] "K" 0 = (0, some Error.ErrEmpty) := by
  decide

/-- The claim C5 fails for a default with surrounding blanks: the key is
absent everywhere and `String` returns the default trimmed, not verbatim. -/
theorem default_verbatim_counterexample :
    Set.String ⟨none, none⟩ [] "K" " x " = ("x", false) ∧
      Set.String ⟨none, none⟩ [] "K" " x " ≠ (" x ", false) := by
  decide

/-- C5 (amended): for a key absent from the override mapping, the OS
environment and the file mapping, `String(key, d)` returns the default with
its leading and trailing trim characters removed, with `false`; this is
`(d, false)` exactly when `d` neither starts nor ends with a trim character. -/
theorem String_absent_default (env : Set) (os : OSEnv) (key d : GoString)
    (h : absentEverywhere env os key) :
    env.String os key d = (Trim d TrimCharacters, false) ∧
      (env.String os key d = (d, false) ↔ isTrimmed d = true) := by
  have hd := String_default env os key d h.1 h.2.1 h.2.2
  refine ⟨hd, ?_⟩
  rw [hd, isTrimmed, ← Trim_eq_self]
  simp

/-- Witness of C5: with nothing set, the default `" x\n"` comes back as `"x"`. -/
theorem String_absent_default_witness :
    Set.String ⟨some [], some []⟩ [("OTHER", "1")] "K" " x\n" = (Trim " x\n" TrimCharacters, false) ∧
      (Set.String ⟨some [], some []⟩ [("OTHER", "1")] "K" " x\n" = (" x\n", false) ↔
        isTrimmed " x\n" = true) :=
  String_absent_default ⟨some [], some []⟩ [("OTHER", "1")] "K" " x\n"
    ⟨by decide, by decide, by decide⟩

/-- C6: a value of the override mapping is returned untrimmed. After
`Set(false, "K", " v ")`, `String("K", "")` returns `(" v ", true)`, a
string with a leading and a trailing trim character, while the same value
held by the OS environment or by the file mapping comes back as `"v"`. -/
theorem String_override_not_trimmed :
    (zeroSet.Set [] false "K" " v ").1.String [] "K" "" = (" v ", true) ∧
      isTrimmed ((zeroSet.Set [] false "K" " v ").1.String [] "K" "").1 = false ∧
      Set.String zeroSet [("K", " v ")] "K" "" = ("v", true) ∧
      Set.String ⟨some [("K", " v ")], none⟩ [] "K" "" = ("v", true) := by
  decide

/-- C7: with a 32-bit `int`, `Int` returns a truncated value with a nil
error: the value `4294967301 = 2^32 + 5` parses as a 64-bit integer outside
`[-2^31, 2^31-1]`, narrowing it keeps the sign, and `Int` returns `(5, nil)`
instead of `(d, ErrOverflow)`. -/
theorem Int_32_returns_truncated_value :
    ParseInt "4294967301" 64 = (4294967301, none) ∧
      ¬ ((-2 ^ 31 : Int) ≤ 4294967301 ∧ (4294967301 : Int) ≤ 2 ^ 31 - 1) ∧
      Set.Int 32 ⟨none, none⟩ [("N", "4294967301")] "N" 0 = (5, none) := by
  decide

/-- C8: when `LoadFile` reads the file with a nil error, the file mapping
maps `k` to `v` exactly when some line binds `k` to `v` (it is not a comment
and holds exactly one `=`, with `k` the trimmed left part and `v` the trimmed
right part) and no later line binds `k`; comment lines and lines with no or
several `=` bind nothing. The content
`"# comment\nFOO = bar\nBROKEN\nBAZ=1=2\n"` yields exactly `{FOO: "bar"}`. -/
theorem LoadFile_file_mapping (env : Set) (content k v : GoString)
    (h : (env.LoadFile (DotEnvFile.opened content none)).2 = none) :
    (mapGet? (env.LoadFile (DotEnvFile.opened content none)).1.fileData k = some v ↔
      ∃ pre line post, (scanFile content none).1 = pre ++ line :: post ∧
        lineBinds line k v ∧ ∀ l ∈ post, ∀ v', ¬ lineBinds l k v') ∧
    (scanFile "# comment\nFOO = bar\nBROKEN\nBAZ=1=2\n" none).1
      = ["# comment", "FOO = bar", "BROKEN", "BAZ=1=2"] ∧
    Set.LoadFile ⟨none, none⟩ (DotEnvFile.opened "# comment\nFOO = bar\nBROKEN\nBAZ=1=2\n" none)
      = (⟨some [("FOO", "bar")], none⟩, none) := by
  refine ⟨?_, by decide, by decide⟩
  have hg : alreadyLoaded env = false := by
    cases hg : alreadyLoaded env with
    | false => rfl
    | true =>
      rw [LoadFile_guarded env _ hg] at h
      simp at h
  rw [LoadFile_opened env content none hg]
  simp only [mapGet?]
  rw [mapGet_foldl_loadLine]
  simp [mapGet]

/-- Witness of C8: in the example file the key `FOO` is bound to `bar` by a
line after which no line binds `FOO`. -/
theorem LoadFile_file_mapping_witness :
    ∃ pre line post,
      (scanFile "# comment\nFOO = bar\nBROKEN\nBAZ=1=2\n" none).1 = pre ++ line :: post ∧
        lineBinds line "FOO" "bar" ∧ ∀ l ∈ post, ∀ v', ¬ lineBinds l "FOO" v' :=
  (LoadFile_file_mapping ⟨none, none⟩ "# comment\nFOO = bar\nBROKEN\nBAZ=1=2\n" "FOO" "bar"
    (by decide)).1.1 (by decide)

/-- The claim C9 (ii) fails for an empty file: after `LoadFile`, a `Set` and
a second `LoadFile`, the second call returns nil, not `ErrLoadFileAlready`. -/
theorem reload_guard_counterexample :
    (((zeroSet.LoadFile (DotEnvFile.opened "" none)).1.Set [] false "K" "v").1.LoadFile
      (DotEnvFile.opened "" none)).2 = none := by
  decide

/-- C9 (amended): starting from a freshly constructed accessor, (i) for a
file scanned without error, `LoadFile` called twice with no `Set` in between
returns nil both times and the second call leaves the file mapping equal to
the parse of the file; (ii) after `LoadFile`, any `Set(global, k, v)` and a
second `LoadFile`, the second call fails with `ErrLoadFileAlready` exactly
when the file holds at least one accepted line, so that the first call left
a non-empty file mapping. -/
theorem LoadFile_reload (content : GoString) (readErr : Option GoString) (file2 : DotEnvFile)
    (os : OSEnv) (global : GoBool) (k v : GoString) :
    ((scanFile content none).2 = none →
      (zeroSet.LoadFile (DotEnvFile.opened content none)).2 = none ∧
      ((zeroSet.LoadFile (DotEnvFile.opened content none)).1.LoadFile
        (DotEnvFile.opened content none)).2 = none ∧
      ((zeroSet.LoadFile (DotEnvFile.opened content none)).1.LoadFile
        (DotEnvFile.opened content none)).1.fileData
          = some ((scanFile content none).1.foldl loadLine [])) ∧
    ((((zeroSet.LoadFile (DotEnvFile.opened content readErr)).1.Set os global k v).1.LoadFile
        file2).2 = some Error.ErrLoadFileAlready ↔
      ∃ line ∈ (scanFile content readErr).1, ∃ k' v', lineBinds line k' v') := by
  have h0 : alreadyLoaded zeroSet = false := rfl
  constructor
  · intro hs
    rw [LoadFile_opened zeroSet content none h0]
    have h1 : alreadyLoaded
        { zeroSet with fileData := some ((scanFile content none).1.foldl loadLine []) }
          = false := by
      simp [alreadyLoaded, zeroSet]
    simp only
    rw [LoadFile_opened _ content none h1]
    exact ⟨hs, hs, rfl⟩
  · rw [LoadFile_opened zeroSet content readErr h0]
    simp only
    have key : alreadyLoaded
        (Set.Set { zeroSet with fileData := some ((scanFile content readErr).1.foldl loadLine []) }
          os global k v).1 = true ↔
        ∃ line ∈ (scanFile content readErr).1, ∃ k' v', lineBinds line k' v' := by
      rw [alreadyLoaded_iff]
      have := foldl_loadLine_ne_nil (scanFile content readErr).1 []
      simp only [ne_eq, not_true_eq_false, false_or] at this
      rw [← this]
      cases global <;> simp [Set.Set, zeroSet]
    rw [← key]
    cases hg : alreadyLoaded
        (Set.Set { zeroSet with fileData := some ((scanFile content readErr).1.foldl loadLine []) }
          os global k v).1 with
    | true => simp [LoadFile_guarded _ file2 hg]
    | false =>
      simp only [Bool.false_eq_true, iff_false]
      unfold Set.LoadFile
      rw [hg]
      simp only [Bool.false_eq_true, if_false]
      cases file2 with
      | absError message => simp
      | notExist => simp
      | openError message => simp
      | opened c e => exact scanFile_err_ne c e

/-- Witness of C9: a file with one accepted line loads twice in a row. -/
theorem LoadFile_reload_witness :
    (zeroSet.LoadFile (DotEnvFile.opened "FOO=bar\n" none)).2 = none ∧
      ((zeroSet.LoadFile (DotEnvFile.opened "FOO=bar\n" none)).1.LoadFile
        (DotEnvFile.opened "FOO=bar\n" none)).2 = none ∧
      ((zeroSet.LoadFile (DotEnvFile.opened "FOO=bar\n" none)).1.LoadFile
        (DotEnvFile.opened "FOO=bar\n" none)).1.fileData
          = some ((scanFile "FOO=bar\n" none).1.foldl loadLine []) :=
  (LoadFile_reload "FOO=bar\n" none DotEnvFile.notExist [] false "K" "v").1 (by decide)

/-- C10: when the key is in the override mapping or in the file mapping,
`UnSet` returns nil, the key is afterwards in neither mapping and the OS
environment is unchanged; when the key is in neither mapping, the accessor
is unchanged, the key is removed from the OS environment and the result is
that of the platform call. In both cases the other keys of both mappings are
left as they were. -/
theorem UnSet_effect (env : Set) (os : OSEnv) (key : GoString) :
    ((mapGet? env.override key ≠ none ∨ mapGet? env.fileData key ≠ none) →
      (env.UnSet os key).2.2 = none ∧
      mapGet? (env.UnSet os key).1.override key = none ∧
      mapGet? (env.UnSet os key).1.fileData key = none ∧
      (env.UnSet os key).2.1 = os) ∧
    ((mapGet? env.override key = none ∧ mapGet? env.fileData key = none) →
      (env.UnSet os key).1 = env ∧
      LookupEnv (env.UnSet os key).2.1 key = none ∧
      (env.UnSet os key).2.1 = (Unsetenv os key).1 ∧
      (env.UnSet os key).2.2 = (Unsetenv os key).2) ∧
    (∀ k, k ≠ key →
      mapGet? (env.UnSet os key).1.override k = mapGet? env.override k ∧
      mapGet? (env.UnSet os key).1.fileData k = mapGet? env.fileData k) := by
  rcases env with ⟨_ | f, _ | o⟩
  · simp [Set.UnSet, mapGet?, Unsetenv, LookupEnv, mapGet_mapDelete]
  · cases ho : mapGet o key with
    | none => simp [Set.UnSet, mapGet?, Unsetenv, LookupEnv, mapGet_mapDelete, ho]
    | some w =>
      simp [Set.UnSet, mapGet?, Unsetenv, LookupEnv, mapGet_mapDelete, ho]
      intro k hk h
      exact absurd h.symm hk
  · cases hf : mapGet f key with
    | none => simp [Set.UnSet, mapGet?, Unsetenv, LookupEnv, mapGet_mapDelete, hf]
    | some w =>
      simp [Set.UnSet, mapGet?, Unsetenv, LookupEnv, mapGet_mapDelete, hf]
      intro k hk h
      exact absurd h.symm hk
  · cases ho : mapGet o key <;> cases hf : mapGet f key <;>
      simp [Set.UnSet, mapGet?, Unsetenv, LookupEnv, mapGet_mapDelete, ho, hf] <;>
      intro k hk <;>
      first
        | (intro h; exact absurd h.symm hk)
        | exact ⟨fun h => absurd h.symm hk, fun h => absurd h.symm hk⟩

/-- Witness of C10: a key of the override mapping is removed there and its
value in the OS environment stays. -/
theorem UnSet_effect_witness :
    (Set.UnSet ⟨none, some [("K", "v")]⟩ [("K", "os")] "K").2.2 = none ∧
      mapGet? (Set.UnSet ⟨none, some [("K", "v")]⟩ [("K", "os")] "K").1.override "K" = none ∧
      mapGet? (Set.UnSet ⟨none, some [("K", "v")]⟩ [("K", "os")] "K").1.fileData "K" = none ∧
      (Set.UnSet ⟨none, some [("K", "v")]⟩ [("K", "os")] "K").2.1 = [("K", "os")] :=
  (UnSet_effect ⟨none, some [("K", "v")]⟩ [("K", "os")] "K").1 (Or.inl (by decide))

/-- The claim C11 fails when the OS environment holds the key: after
`Set(false, k, v)` and `UnSet(k)` the value of the OS environment, left
untouched, is found by `String`. -/
theorem Set_UnSet_counterexample :
    (((zeroSet.Set [("K", "os")] false "K" "v").1.UnSet
        (zeroSet.Set [("K", "os")] false "K" "v").2.1 "K").1.String
      ((zeroSet.Set [("K", "os")] false "K" "v").1.UnSet
        (zeroSet.Set [("K", "os")] false "K" "v").2.1 "K").2.1 "K" "d") = ("os", true) := by
  decide

/-- C11 (amended): after `Set(false, k, v)` followed by `UnSet(k)`, both
calls returned nil, the OS environment is the one before the calls, the key
is in neither the override nor the file mapping, and `String(k, d)` reports
`false` exactly when the OS environment has no value for `k`; when it has
one, `String` returns that value, trimmed, with `true`. -/
theorem Set_UnSet_String (env : Set) (os : OSEnv) (k v d : GoString) :
    (env.Set os false k v).2.2 = none ∧
    ((env.Set os false k v).1.UnSet (env.Set os false k v).2.1 k).2.2 = none ∧
    ((env.Set os false k v).1.UnSet (env.Set os false k v).2.1 k).2.1 = os ∧
    mapGet? ((env.Set os false k v).1.UnSet (env.Set os false k v).2.1 k).1.override k = none ∧
    mapGet? ((env.Set os false k v).1.UnSet (env.Set os false k v).2.1 k).1.fileData k = none ∧
    ((((env.Set os false k v).1.UnSet (env.Set os false k v).2.1 k).1.String
        ((env.Set os false k v).1.UnSet (env.Set os false k v).2.1 k).2.1 k d).2 = false ↔
      LookupEnv os k = none) ∧
    (∀ w, LookupEnv os k = some w →
      ((env.Set os false k v).1.UnSet (env.Set os false k v).2.1 k).1.String
        ((env.Set os false k v).1.UnSet (env.Set os false k v).2.1 k).2.1 k d
          = (Trim w TrimCharacters, true)) := by
  have hs : (env.Set os false k v) =
      ({ env with override := some (mapSet (env.override.getD []) k v) }, os, none) := by
    rcases env with ⟨f, _ | o⟩ <;> rfl
  rw [hs]
  simp only
  have hin : mapGet? (some (mapSet (env.override.getD []) k v)) k ≠ none := by
    simp [mapGet?, mapGet_mapSet]
  obtain ⟨h1, h2, h3, h4⟩ :=
    UnSet_present { env with override := some (mapSet (env.override.getD []) k v) } os k
      (Or.inl hin)
  refine ⟨trivial, h1, h4, h2, h3, ?_, ?_⟩
  · rw [h4, String_found_iff]
    simp [h2, h3]
  · intro w hw
    rw [h4]
    exact String_os _ os k d w h2 hw

/-- Witness of C11: with no value in the OS environment the key is no longer found. -/
theorem Set_UnSet_String_witness :
    (((zeroSet.Set [] false "K" "v").1.UnSet (zeroSet.Set [] false "K" "v").2.1 "K").1.String
      ((zeroSet.Set [] false "K" "v").1.UnSet (zeroSet.Set [] false "K" "v").2.1 "K").2.1
        "K" "d").2 = false :=
  (Set_UnSet_String zeroSet [] "K" "v" "d").2.2.2.2.2.1.2 (by decide)

/-- C12: `Set(true, k, v)` writes `k -> v` into the override mapping in
every case. When the platform write succeeds, `Set` returns nil and a
platform lookup of `k` then yields `v`; when it fails, `Set` returns the
platform error, the OS environment is unchanged and the override mapping
still holds `k -> v`. -/
theorem Set_global (env : Set) (os : OSEnv) (k v : GoString) :
    mapGet? (env.Set os true k v).1.override k = some v ∧
    (env.Set os true k v).1.fileData = env.fileData ∧
    (env.Set os true k v).2.2 = (Setenv os k v).2 ∧
    ((Setenv os k v).2 = none →
      (env.Set os true k v).2.2 = none ∧ LookupEnv (env.Set os true k v).2.1 k = some v) ∧
    (∀ e, (Setenv os k v).2 = some e →
      (env.Set os true k v).2.2 = some e ∧ (env.Set os true k v).2.1 = os ∧
        mapGet? (env.Set os true k v).1.override k = some v) := by
  have ho : mapGet? (env.Set os true k v).1.override k = some v := by
    simp [Set.Set, mapGet?, mapGet_mapSet]
  refine ⟨ho, rfl, rfl, ?_, ?_⟩
  · intro h
    refine ⟨h, ?_⟩
    show LookupEnv (Setenv os k v).1 k = some v
    unfold Setenv at h ⊢
    split_ifs at h ⊢ with hc
    have hk : ¬ k = "" := fun hk => hc (Or.inl hk)
    simp [LookupEnv, hk, mapGet_mapSet]
  · intro e h
    refine ⟨h, ?_, ho⟩
    show (Setenv os k v).1 = os
    unfold Setenv at h ⊢
    split_ifs at h ⊢
    rfl

/-- Witness of C12: a key holding `=` is refused by the platform, the OS
environment stays as it was and the override mapping has the value. -/
theorem Set_global_witness :
    (Set.Set zeroSet [("A", "1")] true "K=" "v").2.2
        = some (Error.SyscallError "setenv" "EINVAL") ∧
      (Set.Set zeroSet [("A", "1")] true "K=" "v").2.1 = [("A", "1")] ∧
      mapGet? (Set.Set zeroSet [("A", "1")] true "K=" "v").1.override "K=" = some "v" :=
  (Set_global zeroSet [("A", "1")] "K=" "v").2.2.2.2 _ (by decide)

/-- C14: the value `LoadFile` loaded for a key does not take priority over
the OS environment: with `K=file` in the file and `K=os` in the OS
environment, `LoadFile` succeeds, the file mapping holds `file` for `K`, and
`String("K", "")` returns the value of the OS environment. -/
theorem String_prefers_OS_over_file :
    (zeroSet.LoadFile (DotEnvFile.opened "K=file\n" none)).2 = none ∧
      mapGet? (zeroSet.LoadFile (DotEnvFile.opened "K=file\n" none)).1.fileData "K"
        = some "file" ∧
      (zeroSet.LoadFile (DotEnvFile.opened "K=file\n" none)).1.String [("K", "os")] "K" ""
        = ("os", true) := by
  decide

/-- The claim C18 fails for `Default` with a default that has surrounding
blanks: for a key that is not set it returns the default trimmed. -/
theorem Default_counterexample :
    Set.Default zeroSet [] " x " "K" = "x" ∧ Set.Default zeroSet [] " x " "K" ≠ " x " := by
  decide

/-- C18 (amended): `DefaultInt(d)(key)`, `DefaultInt32(d)(key)`,
`DefaultInt64(d)(key)` and `DefaultBool(d)(key)` return the value component
of `Int`, `Int32`, `Int64` and `Bool` called with `(key, d)`, hence `d`
whenever that getter returns an error; `Default(d)(key)` returns the value
component of `String(key, d)`, which for a key that is not set is the
default with its leading and trailing trim characters removed. -/
theorem Default_wrappers (intSize : Nat) (env : Set) (os : OSEnv) (key ds : GoString)
    (d : GoInt) (b : GoBool) :
    (env.DefaultInt intSize os d key = (env.Int intSize os key d).1 ∧
      env.DefaultInt32 os d key = (env.Int32 os key d).1 ∧
      env.DefaultInt64 os d key = (env.Int64 os key d).1 ∧
      env.DefaultBool os b key = (env.Bool os key b).1 ∧
      env.Default os ds key = (env.String os key ds).1) ∧
    (((env.Int intSize os key d).2 ≠ none → env.DefaultInt intSize os d key = d) ∧
      ((env.Int32 os key d).2 ≠ none → env.DefaultInt32 os d key = d) ∧
      ((env.Int64 os key d).2 ≠ none → env.DefaultInt64 os d key = d) ∧
      ((env.Bool os key b).2 ≠ none → env.DefaultBool os b key = b)) ∧
    (absentEverywhere env os key → env.Default os ds key = Trim ds TrimCharacters) := by
  refine ⟨⟨rfl, rfl, rfl, rfl, rfl⟩, ⟨?_, ?_, ?_, ?_⟩, ?_⟩
  · show (env.Int intSize os key d).2 ≠ none → (env.Int intSize os key d).1 = d
    rw [Int_eq]
    split_ifs <;> simp_all
  · show (env.Int32 os key d).2 ≠ none → (env.Int32 os key d).1 = d
    rw [Int32_eq]
    split_ifs <;> simp_all
  · show (env.Int64 os key d).2 ≠ none → (env.Int64 os key d).1 = d
    rw [Int64_eq]
    split_ifs <;> simp_all
  · show (env.Bool os key b).2 ≠ none → (env.Bool os key b).1 = b
    rw [Bool_eq]
    split_ifs <;> simp_all
  · intro h
    show (env.String os key ds).1 = Trim ds TrimCharacters
    rw [String_default env os key ds h.1 h.2.1 h.2.2]

/-- Witness of C18: a value that does not parse makes `DefaultInt` return the default. -/
theorem Default_wrappers_witness :
    Set.DefaultInt 64 zeroSet [("N", "abc")] 5 "N" = 5 :=
  (Default_wrappers 64 zeroSet [("N", "abc")] "N" "" 5 true).2.1.1 (by decide)

/-- C19: the reload guard tests that the override mapping exists, not that
it holds a key. For an accessor whose file mapping has a key other than `k`,
after `Set(false, k, v)` and `UnSet(k)` the override mapping is non-nil
(and empty when there was none before), and `LoadFile` fails with
`ErrLoadFileAlready` leaving the accessor as it was; `LoadFile` takes no part
in the OS environment. Conversely, with a file mapping that is nil or
empty, `LoadFile` does not return `ErrLoadFileAlready` after any sequence of
`Set` calls. -/
theorem reload_guard_override_created (env : Set) (os : OSEnv) (k v : GoString)
    (file : DotEnvFile) (calls : List (GoBool × GoString × GoString)) :
    ((∃ k2 w, k2 ≠ k ∧ mapGet? env.fileData k2 = some w) →
      ((env.Set os false k v).1.UnSet os k).1.override ≠ none ∧
      (env.override = none → ((env.Set os false k v).1.UnSet os k).1.override = some []) ∧
      ((env.Set os false k v).1.UnSet os k).1.LoadFile file
        = (((env.Set os false k v).1.UnSet os k).1, some Error.ErrLoadFileAlready)) ∧
    ((env.fileData = none ∨ env.fileData = some []) →
      ((applySets env os calls).1.LoadFile file).2 ≠ some Error.ErrLoadFileAlready) := by
  constructor
  · rintro ⟨k2, w, hk, hw⟩
    have hs : (env.Set os false k v).1 =
        { env with override := some (mapSet (env.override.getD []) k v) } := by
      rcases env with ⟨f, _ | o⟩ <;> rfl
    rw [hs]
    have hu : (Set.UnSet { env with override := some (mapSet (env.override.getD []) k v) }
        os k).1 =
        ⟨env.fileData.map (fun f => mapDelete f k),
          some (mapDelete (mapSet (env.override.getD []) k v) k)⟩ := by
      rcases env with ⟨_ | f, o⟩
      · simp [Set.UnSet, mapGet_mapSet]
      · cases hf : mapGet f k with
        | none => simp [Set.UnSet, mapGet_mapSet, hf, mapDelete_of_absent f k hf]
        | some x => simp [Set.UnSet, mapGet_mapSet, hf]
    rw [hu]
    refine ⟨by simp, ?_, ?_⟩
    · intro ho
      simp [ho, mapSet, mapDelete]
    · apply LoadFile_guarded
      rw [alreadyLoaded_iff]
      refine ⟨?_, by simp⟩
      rcases env with ⟨_ | f, o⟩
      · simp [mapGet?] at hw
      · refine ⟨mapDelete f k, rfl, ?_⟩
        intro hnil
        have := mapGet_mapDelete f k k2
        rw [hnil] at this
        simp only [mapGet?] at hw
        rw [hw] at this
        simp [mapGet, hk.symm] at this
  · intro h
    have hg : alreadyLoaded (applySets env os calls).1 = false := by
      cases hc : alreadyLoaded (applySets env os calls).1 with
      | false => rfl
      | true =>
        rw [alreadyLoaded_iff, applySets_fileData] at hc
        obtain ⟨⟨f, hf, hne⟩, _⟩ := hc
        rcases h with h | h <;> rw [h] at hf <;> simp at hf
        exact absurd hf.symm (Ne.symm hne)
    unfold Set.LoadFile
    rw [hg]
    simp only [Bool.false_eq_true, if_false]
    cases file with
    | absError message => simp
    | notExist => simp
    | openError message => simp
    | opened c e => exact scanFile_err_ne c e

/-- Witness of C19: with `A` in the file mapping, setting and unsetting `K`
blocks the reload. -/
theorem reload_guard_override_created_witness :
    (((Set.Set ⟨some [("A", "1")], none⟩ [] false "K" "v").1.UnSet [] "K").1.LoadFile
        DotEnvFile.notExist).2 = some Error.ErrLoadFileAlready :=
  congrArg Prod.snd
    ((reload_guard_override_created ⟨some [("A", "1")], none⟩ [] "K" "v" DotEnvFile.notExist
      []).1 ⟨"A", "1", by decide, by decide⟩).2.2

/-- C20: with a 64-bit `int` the overflow branch of `Int` is never taken:
`Int` returns what `Int64` returns, value and error, its error is never
`ErrOverflow`, and the sign test `(v <= 0) == (i > 0)` is false for every
64-bit `v` with `i = int(v)`. -/
theorem Int_64_no_overflow (env : Set) (os : OSEnv) (key : GoString) (d : GoInt) :
    env.Int 64 os key d = env.Int64 os key d ∧
    (env.Int 64 os key d).2 ≠ some Error.ErrOverflow ∧
    (∀ v : Int, -2 ^ 63 ≤ v → v < 2 ^ 63 →
      wrapInt 64 v = v ∧ decide (v ≤ 0) ≠ decide (wrapInt 64 v > 0)) := by
  have hsign : ∀ v : Int, -2 ^ 63 ≤ v → v < 2 ^ 63 →
      wrapInt 64 v = v ∧ decide (v ≤ 0) ≠ decide (wrapInt 64 v > 0) := by
    intro v h1 h2
    have hw := wrapInt_64_of_range v h1 h2
    refine ⟨hw, ?_⟩
    rw [hw]
    by_cases hv : v ≤ 0
    · have : ¬ v > 0 := by omega
      simp [hv, this]
    · have : v > 0 := by omega
      simp [hv, this]
  have heq : env.Int 64 os key d = env.Int64 os key d := by
    rw [Int_eq]
    by_cases he : (env.Int64 os key d).2 = none
    · obtain ⟨h1, h2⟩ := Int64_range env os key d he
      obtain ⟨hw, hne⟩ := hsign _ h1 h2
      rw [if_pos he, if_neg hne, hw]
      exact Prod.ext rfl he.symm
    · rw [if_neg he]
      have : (env.Int64 os key d).1 = d := by
        rw [Int64_eq] at he ⊢
        split_ifs at he ⊢ <;> simp_all
      exact Prod.ext this.symm rfl
  refine ⟨heq, ?_, hsign⟩
  rw [heq]
  exact Int64_err_ne_overflow env os key d

/-- C15: with `s` the lower-cased value of `String("LOG_LEVEL", "")`,
`ApplyLogLevel(defaultLevel)` returns Debug for `debug`, `d`; Info for
`info`, `i`; Warn for `warn`, `warning`, `w`; Error for `error`, `err`, `e`;
Fatal for `fatal`, `f`; Panic for `panic`, `p`; Disabled for `off`, `no`,
`none` and the empty string, hence for an unset `LOG_LEVEL`; and
`defaultLevel` for every other `s`, logging exactly one warning then and
none otherwise. The global level after the call is the level returned.
`LOG_LEVEL=Warning` gives Warn; `LOG_LEVEL=bogus` gives `defaultLevel` with
one warning. -/
theorem ApplyLogLevel_levels (table : Char → Char) (env : Set) (os : OSEnv) (log : LogState)
    (defaultLevel : Level) (s : GoString) (r : Level × LogState)
    (hs : s = ToLower table (env.String os "LOG_LEVEL" "").1)
    (hr : r = env.ApplyLogLevel table os log defaultLevel) :
    ((s = "debug" ∨ s = "d") → r.1 = DebugLevel) ∧
    ((s = "info" ∨ s = "i") → r.1 = InfoLevel) ∧
    ((s = "warn" ∨ s = "warning" ∨ s = "w") → r.1 = WarnLevel) ∧
    ((s = "error" ∨ s = "err" ∨ s = "e") → r.1 = ErrorLevel) ∧
    ((s = "fatal" ∨ s = "f") → r.1 = FatalLevel) ∧
    ((s = "panic" ∨ s = "p") → r.1 = PanicLevel) ∧
    ((s = "off" ∨ s = "no" ∨ s = "none" ∨ s = "") → r.1 = Disabled) ∧
    (absentEverywhere env os "LOG_LEVEL" → r.1 = Disabled) ∧
    (s ∉ ["debug", "d", "info", "i", "warn", "warning", "w", "error", "err", "e", "fatal",
        "f", "panic", "p", "off", "no", "none", ""] →
      r.1 = defaultLevel ∧
        r.2.warnings = log.warnings ++
          ["Log level \"" ++ (env.String os "LOG_LEVEL" "").1 ++ "\" invalid."]) ∧
    (s ∈ ["debug", "d", "info", "i", "warn", "warning", "w", "error", "err", "e", "fatal",
        "f", "panic", "p", "off", "no", "none", ""] → r.2.warnings = log.warnings) ∧
    r.2.globalLevel = r.1 ∧
    Set.ApplyLogLevel table zeroSet [("LOG_LEVEL", "Warning")] log defaultLevel
      = (WarnLevel, ⟨WarnLevel, log.warnings⟩) ∧
    Set.ApplyLogLevel table zeroSet [("LOG_LEVEL", "bogus")] log defaultLevel
      = (defaultLevel, ⟨defaultLevel, log.warnings ++ ["Log level \"bogus\" invalid."]⟩) := by
  have hempty : (env.String os "LOG_LEVEL" "").1 = "" → s = "" := by
    intro h
    rw [hs, h]
    rfl
  subst hr
  unfold Set.ApplyLogLevel
  simp only
  rw [← hs]
  refine ⟨?_, ?_, ?_, ?_, ?_, ?_, ?_, ?_, ?_, ?_, trivial, rfl, rfl⟩
  · rintro (rfl | rfl) <;> rfl
  · rintro (rfl | rfl) <;> rfl
  · rintro (rfl | rfl | rfl) <;> rfl
  · rintro (rfl | rfl | rfl) <;> rfl
  · rintro (rfl | rfl) <;> rfl
  · rintro (rfl | rfl) <;> rfl
  · rintro (rfl | rfl | rfl | rfl) <;> rfl
  · intro h
    have h0 : (env.String os "LOG_LEVEL" "").1 = "" := by
      rw [String_default env os "LOG_LEVEL" "" h.1 h.2.1 h.2.2]
      rfl
    have := hempty h0
    subst this
    rfl
  · intro h
    simp only [List.mem_cons, List.mem_singleton, not_or, List.not_mem_nil, or_false] at h
    obtain ⟨h1, h2, h3, h4, h5, h6, h7, h8, h9, h10, h11, h12, h13, h14, h15, h16, h17, h18⟩ := h
    have hne : (env.String os "LOG_LEVEL" "").1 ≠ "" := fun h0 => h18 (hempty h0)
    simp [h1, h2, h3, h4, h5, h6, h7, h8, h9, h10, h11, h12, h13, h14, h15, h16, h17, h18, hne]
  · intro h
    simp only [List.mem_cons, List.mem_singleton, List.not_mem_nil, or_false] at h
    rcases h with h | h | h | h | h | h | h | h | h | h | h | h | h | h | h | h | h | h <;>
      subst h <;> rfl

/-- Witness of C15: `LOG_LEVEL=Warning` in the OS environment sets and
returns the warn level. -/
theorem ApplyLogLevel_levels_witness :
    (Set.ApplyLogLevel id zeroSet [("LOG_LEVEL", "Warning")] ⟨DebugLevel, []⟩ InfoLevel).1
      = WarnLevel :=
  (ApplyLogLevel_levels id zeroSet [("LOG_LEVEL", "Warning")] ⟨DebugLevel, []⟩ InfoLevel
    "warning" _ (by decide) rfl).2.2.1 (Or.inr (Or.inl rfl))

/-- C16: when the key resolves, from any tier, to the canonical base-10
rendering of a 64-bit integer `n`, `Int64` returns `(n, nil)`, and `Int`
returns `(n, nil)` whenever `n` fits the native width (32 or 64 bits). When
the key resolves to the empty string both return `(d, ErrEmpty)`; when it is
absent, `(d, ErrNotSet)`; when it resolves to `abc`, `d` with the syntax
error of `ParseInt`. For every non-empty string `s` that `String` returns
for the key, `Int64` succeeds exactly when `s` is an optionally signed
digit string of the 64-bit range; for every other `s`, in particular every
non-numeric one, `Int64` and `Int` return `d` with the `ParseInt` error.
With `N = "42"` and `d = 5` the result is `(42, nil)`. -/
theorem decimal_roundtrip (intSize : Nat) (env : Set) (os : OSEnv) (key : GoString)
    (n d : GoInt) :
    (-2 ^ 63 ≤ n → n < 2 ^ 63 → resolve env os key = some (renderInt n) →
      env.Int64 os key d = (n, none) ∧
      ((intSize = 32 ∨ intSize = 64) → -2 ^ (intSize - 1) ≤ n → n < 2 ^ (intSize - 1) →
        env.Int intSize os key d = (n, none))) ∧
    (resolve env os key = some "" →
      env.Int64 os key d = (d, some Error.ErrEmpty) ∧
      env.Int intSize os key d = (d, some Error.ErrEmpty)) ∧
    (resolve env os key = none →
      env.Int64 os key d = (d, some Error.ErrNotSet) ∧
      env.Int intSize os key d = (d, some Error.ErrNotSet)) ∧
    (resolve env os key = some "abc" →
      env.Int64 os key d = (d, some (Error.NumError "ParseInt" "abc" NumErrKind.ErrSyntax)) ∧
      env.Int intSize os key d
        = (d, some (Error.NumError "ParseInt" "abc" NumErrKind.ErrSyntax))) ∧
    (∀ s : GoString, env.String os key "" = (s, true) → s ≠ "" →
      (∀ m : Int, env.Int64 os key d = (m, none) ↔
        denotesDecimal s m ∧ -2 ^ 63 ≤ m ∧ m < 2 ^ 63) ∧
      ((¬ ∃ m : Int, denotesDecimal s m ∧ -2 ^ 63 ≤ m ∧ m < 2 ^ 63) →
        ∃ k, env.Int64 os key d = (d, some (Error.NumError "ParseInt" s k)) ∧
          env.Int intSize os key d = (d, some (Error.NumError "ParseInt" s k))) ∧
      ((∀ m : Int, ¬ denotesDecimal s m) →
        ∃ k, env.Int64 os key d = (d, some (Error.NumError "ParseInt" s k)) ∧
          env.Int intSize os key d = (d, some (Error.NumError "ParseInt" s k)))) ∧
    (renderInt 42 = "42" ∧
      Set.Int64 zeroSet [("N", "42")] "N" 5 = (42, none) ∧
      Set.Int 64 zeroSet [("N", "42")] "N" 5 = (42, none) ∧
      Set.Int 32 zeroSet [("N", "42")] "N" 5 = (42, none)) := by
  refine ⟨?_, ?_, ?_, ?_, ?_, by decide⟩
  · intro h1 h2 hr
    have hs := String_of_resolve env os key "" _ hr (Trim_renderInt n)
    have h64 : env.Int64 os key d = (n, none) := by
      rw [Int64_found env os key _ d hs (renderInt_ne_empty n), ParseInt_renderInt n h1 h2]
      rfl
    refine ⟨h64, ?_⟩
    intro hw h3 h4
    apply Int_of_Int64_ok intSize env os key d n h64
    rcases hw with rfl | rfl
    · exact wrapInt_32_of_range n h3 h4
    · exact wrapInt_64_of_range n h3 h4
  · intro hr
    have hs := String_of_resolve env os key "" "" hr (by decide)
    have h64 : env.Int64 os key d = (d, some Error.ErrEmpty) := by
      rw [Int64_eq, hs]
      rfl
    exact ⟨h64, Int_of_Int64_err intSize env os key d d _ h64⟩
  · intro hr
    have ha := (resolve_none_iff env os key).1 hr
    have hs := String_default env os key "" ha.1 ha.2.1 ha.2.2
    have h64 : env.Int64 os key d = (d, some Error.ErrNotSet) := by
      rw [Int64_eq, hs]
      rfl
    exact ⟨h64, Int_of_Int64_err intSize env os key d d _ h64⟩
  · intro hr
    have hs := String_of_resolve env os key "" "abc" hr (by decide)
    have h64 : env.Int64 os key d
        = (d, some (Error.NumError "ParseInt" "abc" NumErrKind.ErrSyntax)) := by
      rw [Int64_found env os key "abc" d hs (by decide)]
      rfl
    exact ⟨h64, Int_of_Int64_err intSize env os key d d _ h64⟩
  · intro s hs hne
    obtain ⟨h1, h2⟩ := Int64_parses env os key s d hs hne
    have h3 : (¬ ∃ m : Int, denotesDecimal s m ∧ -2 ^ 63 ≤ m ∧ m < 2 ^ 63) →
        ∃ k, env.Int64 os key d = (d, some (Error.NumError "ParseInt" s k)) ∧
          env.Int intSize os key d = (d, some (Error.NumError "ParseInt" s k)) := by
      intro hno
      obtain ⟨k, hk⟩ := h2 hno
      exact ⟨k, hk, Int_of_Int64_err intSize env os key d d _ hk⟩
    refine ⟨h1, h3, ?_⟩
    intro hnon
    exact h3 (fun ⟨m, hm, _⟩ => hnon m hm)

/-- Witness of C16: the file mapping holds the rendering of `-7` for `N`. -/
theorem decimal_roundtrip_witness :
    Set.Int64 ⟨some [("N", "-7")], none⟩ [] "N" 5 = (-7, none) ∧
      ((32 = 32 ∨ 32 = 64) → -2 ^ (32 - 1) ≤ (-7 : Int) → (-7 : Int) < 2 ^ (32 - 1) →
        Set.Int 32 ⟨some [("N", "-7")], none⟩ [] "N" 5 = (-7, none)) :=
  (decimal_roundtrip 32 ⟨some [("N", "-7")], none⟩ [] "N" (-7) 5).1
    (by norm_num) (by norm_num) (by decide)

/-- C17: for a key that resolves to a non-empty string `s`, `Int32` returns
`(n, nil)` exactly when `s` is an optionally signed base-10 digit string
denoting `n` with `-2^31 <= n <= 2^31-1`; for every other `s`, decimals
outside that range included, it returns the default with the `ParseInt`
error, never a wrapped-around value. -/
theorem Int32_parses_at_width (env : Set) (os : OSEnv) (key s : GoString) (d n : GoInt)
    (hs : env.String os key "" = (s, true)) (hne : s ≠ "") :
    (env.Int32 os key d = (n, none) ↔
      denotesDecimal s n ∧ -2 ^ 31 ≤ n ∧ n ≤ 2 ^ 31 - 1) ∧
    ((¬ ∃ m : Int, denotesDecimal s m ∧ -2 ^ 31 ≤ m ∧ m ≤ 2 ^ 31 - 1) →
      ∃ k, env.Int32 os key d = (d, some (Error.NumError "ParseInt" s k))) := by
  have hspec := fun m : Int => ParseInt_spec s 32 m (Or.inl rfl)
  have hlt : ∀ m : Int, m < 2 ^ (32 - 1) ↔ m ≤ 2 ^ 31 - 1 := by
    intro m
    norm_num
    omega
  rw [Int32_found env os key s d hs hne]
  constructor
  · constructor
    · intro h
      by_cases he : (ParseInt s 32).2 = none
      · rw [if_pos he] at h
        have hp := (hspec (ParseInt s 32).1).1 (Prod.ext rfl he)
        have hw := wrapInt_32_of_range (ParseInt s 32).1 hp.2.1 hp.2.2
        rw [hw] at h
        have hn : (ParseInt s 32).1 = n := congrArg Prod.fst h
        rw [hn] at hp
        exact ⟨hp.1, hp.2.1, (hlt n).1 hp.2.2⟩
      · rw [if_neg he] at h
        exact absurd (congrArg Prod.snd h) he
    · rintro ⟨h1, h2, h3⟩
      have hp := (hspec n).2 ⟨h1, h2, (hlt n).2 h3⟩
      rw [hp]
      simp only [if_true]
      rw [wrapInt_32_of_range n h2 ((hlt n).2 h3)]
  · intro hno
    have he : (ParseInt s 32).2 ≠ none := by
      intro he
      have hp := (hspec (ParseInt s 32).1).1 (Prod.ext rfl he)
      exact hno ⟨_, hp.1, hp.2.1, (hlt _).1 hp.2.2⟩
    rw [if_neg he]
    obtain ⟨e, hee⟩ := Option.ne_none_iff_exists'.1 he
    obtain ⟨k, hk⟩ := ParseInt_err s 32 e hee
    exact ⟨k, by rw [hee, hk]⟩

/-- Witness of C17: the decimal `2147483648`, one above the range, is
refused; `Int32` returns the default with a `ParseInt` error. -/
theorem Int32_parses_at_width_witness :
    (Set.Int32 zeroSet [("N", "-2147483648")] "N" 5 = (-2147483648, none) ↔
      denotesDecimal "-2147483648" (-2147483648) ∧ -2 ^ 31 ≤ (-2147483648 : Int) ∧
        (-2147483648 : Int) ≤ 2 ^ 31 - 1) ∧
    ((¬ ∃ m : Int, denotesDecimal "-2147483648" m ∧ -2 ^ 31 ≤ m ∧ m ≤ 2 ^ 31 - 1) →
      ∃ k, Set.Int32 zeroSet [("N", "-2147483648")] "N" 5
        = (5, some (Error.NumError "ParseInt" "-2147483648" k))) :=
  Int32_parses_at_width zeroSet [("N", "-2147483648")] "N" "-2147483648" 5 (-2147483648)
    (by decide) (by decide)

/-- The claim C13 fails for `UnSet` of a key that is in neither mapping of
the clone: the call removes the key from the shared OS environment, and the
result of `String` on the original changes from the OS value to not found,
its two mappings being unchanged. -/
theorem Clone_UnSet_counterexample :
    ((⟨none, none⟩ : SetObj).view (SetObj.Clone ⟨none, none⟩ ⟨fun _ => [], 0⟩).2).String
        [("K", "os")] "K" "" = ("os", true) ∧
      ((⟨none, none⟩ : SetObj).view
          ((SetObj.Clone ⟨none, none⟩ ⟨fun _ => [], 0⟩).1.UnSet
            (SetObj.Clone ⟨none, none⟩ ⟨fun _ => [], 0⟩).2 [("K", "os")] "K").2.1).String
        ((SetObj.Clone ⟨none, none⟩ ⟨fun _ => [], 0⟩).1.UnSet
          (SetObj.Clone ⟨none, none⟩ ⟨fun _ => [], 0⟩).2 [("K", "os")] "K").2.2.1 "K" ""
        = ("", false) := by
  decide

/-- C13 (amended): for an accessor `e` and `c = e.Clone()`, `c` has the
same contents as `e` (nil mappings stay nil, every lookup agrees, hence the
same `String` results) and `e` is untouched. A later `Set(false, k, v)` or
`UnSet(k)` on `c` leaves both mappings of `e` unchanged, and likewise for
`e` and `c` exchanged. `Set(false, k, v)` leaves the OS environment, hence
every `String` result of the other one, unchanged; `UnSet(k)` leaves it
unchanged when the key is in a mapping of the one it is called on, and
otherwise it is exactly `os.Unsetenv(k)` on the shared OS environment: the
key is gone from it, the other one no longer finds it, and its `String`
results are unchanged for every other key. `Set(true, k, v)` on either one
writes the one OS environment, and the other reads the new value when it
has no override for `k`. All of this holds at any later time: after any
sequence of `Set` and `UnSet` calls on `e` and `c`, in any interleaving, a
further call on one leaves the mappings of the other unchanged and acts on
its own mappings and on the OS environment as the method does on an accessor
standing alone; calls on `c` only leave the mappings of `e` as they were at
the time of the `Clone`, and calls on `e` only those of `c`; and when the
two mappings of `e` are two different maps, the whole sequence acts as on two
accessors that share nothing but the OS environment. -/
theorem Clone_independence (e c : SetObj) (h h1 : Heap) (os : OSEnv) (k v d : GoString)
    (ha : e.allocated h) (hc : e.Clone h = (c, h1)) :
    (sameContents (c.view h1) (e.view h) ∧ e.view h1 = e.view h ∧
      ∀ os' key dflt, (c.view h1).String os' key dflt = (e.view h).String os' key dflt) ∧
    (e.view (c.Set h1 os false k v).2.1 = e.view h1 ∧
      (c.Set h1 os false k v).2.2.1 = os ∧
      (c.Set h1 os false k v).1.view (c.Set h1 os false k v).2.1
        = ((c.view h1).Set os false k v).1 ∧
      c.view (e.Set h1 os false k v).2.1 = c.view h1 ∧
      (e.Set h1 os false k v).2.2.1 = os) ∧
    (e.view (c.UnSet h1 os k).2.1 = e.view h1 ∧
      (c.UnSet h1 os k).1.view (c.UnSet h1 os k).2.1 = ((c.view h1).UnSet os k).1 ∧
      ((mapGet? (c.view h1).override k ≠ none ∨ mapGet? (c.view h1).fileData k ≠ none) →
        (c.UnSet h1 os k).2.2.1 = os) ∧
      (∀ key dflt, key ≠ k →
        (e.view (c.UnSet h1 os k).2.1).String (c.UnSet h1 os k).2.2.1 key dflt
          = (e.view h1).String os key dflt) ∧
      c.view (e.UnSet h1 os k).2.1 = c.view h1 ∧
      (∀ key dflt, key ≠ k →
        (c.view (e.UnSet h1 os k).2.1).String (e.UnSet h1 os k).2.2.1 key dflt
          = (c.view h1).String os key dflt)) ∧
    ((c.Set h1 os true k v).2.2.1 = (Setenv os k v).1 ∧
      (e.Set h1 os true k v).2.2.1 = (Setenv os k v).1 ∧
      e.view (c.Set h1 os true k v).2.1 = e.view h1 ∧
      c.view (e.Set h1 os true k v).2.1 = c.view h1 ∧
      ((Setenv os k v).2 = none → mapGet? (e.view h1).override k = none →
        (e.view (c.Set h1 os true k v).2.1).String (c.Set h1 os true k v).2.2.1 k d
          = (Trim v TrimCharacters, true)) ∧
      ((Setenv os k v).2 = none → mapGet? (c.view h1).override k = none →
        (c.view (e.Set h1 os true k v).2.1).String (e.Set h1 os true k v).2.2.1 k d
          = (Trim v TrimCharacters, true))) ∧
    ((c.UnSet h1 os k).2.2 = ((c.view h1).UnSet os k).2 ∧
      (mapGet? (c.view h1).override k = none → mapGet? (c.view h1).fileData k = none →
        c.UnSet h1 os k = (c, h1, Unsetenv os k) ∧
        LookupEnv (c.UnSet h1 os k).2.2.1 k = none ∧
        (e.view (c.UnSet h1 os k).2.1).String (c.UnSet h1 os k).2.2.1 k d
          = (Trim d TrimCharacters, false)) ∧
      (mapGet? (e.view h1).override k = none → mapGet? (e.view h1).fileData k = none →
        e.UnSet h1 os k = (e, h1, Unsetenv os k) ∧
        LookupEnv (e.UnSet h1 os k).2.2.1 k = none ∧
        (c.view (e.UnSet h1 os k).2.1).String (e.UnSet h1 os k).2.2.1 k d
          = (Trim d TrimCharacters, false))) ∧
    (∀ ops : List (Bool × Call),
      (∀ call : Call,
        (runObjs e c h1 os ops).1.view
            ((runObjs e c h1 os ops).2.1.call (runObjs e c h1 os ops).2.2.1
              (runObjs e c h1 os ops).2.2.2 call).2.1
          = (runObjs e c h1 os ops).1.view (runObjs e c h1 os ops).2.2.1 ∧
        (runObjs e c h1 os ops).2.1.view
            ((runObjs e c h1 os ops).1.call (runObjs e c h1 os ops).2.2.1
              (runObjs e c h1 os ops).2.2.2 call).2.1
          = (runObjs e c h1 os ops).2.1.view (runObjs e c h1 os ops).2.2.1 ∧
        ((runObjs e c h1 os ops).2.1.call (runObjs e c h1 os ops).2.2.1
              (runObjs e c h1 os ops).2.2.2 call).1.view
            ((runObjs e c h1 os ops).2.1.call (runObjs e c h1 os ops).2.2.1
              (runObjs e c h1 os ops).2.2.2 call).2.1
          = (((runObjs e c h1 os ops).2.1.view (runObjs e c h1 os ops).2.2.1).call
              (runObjs e c h1 os ops).2.2.2 call).1 ∧
        ((runObjs e c h1 os ops).2.1.call (runObjs e c h1 os ops).2.2.1
              (runObjs e c h1 os ops).2.2.2 call).2.2
          = (((runObjs e c h1 os ops).2.1.view (runObjs e c h1 os ops).2.2.1).call
              (runObjs e c h1 os ops).2.2.2 call).2) ∧
      ((∀ step ∈ ops, step.1 = true) →
        (runObjs e c h1 os ops).1.view (runObjs e c h1 os ops).2.2.1 = e.view h1) ∧
      ((∀ step ∈ ops, step.1 = false) →
        (runObjs e c h1 os ops).2.1.view (runObjs e c h1 os ops).2.2.1 = c.view h1) ∧
      (e.separate →
        ((runObjs e c h1 os ops).1.view (runObjs e c h1 os ops).2.2.1,
          (runObjs e c h1 os ops).2.1.view (runObjs e c h1 os ops).2.2.1,
          (runObjs e c h1 os ops).2.2.2) = runSets (e.view h1) (c.view h1) os ops)) := by
  have hspec := Clone_spec e h ha
  rw [hc] at hspec
  obtain ⟨hca, hea, hdis, hsep, hev, hsame⟩ := hspec
  have hdis2 := disjoint_symm e c hdis
  have hother : ∀ (x y : SetObj) (key dflt : GoString), key ≠ k →
      y.view (x.UnSet h1 os k).2.1 = y.view h1 →
      (y.view (x.UnSet h1 os k).2.1).String (x.UnSet h1 os k).2.2.1 key dflt
        = (y.view h1).String os key dflt := by
    intro x y key dflt hk hv
    rw [hv]
    apply String_os_congr
    rcases SetObj_UnSet_os x h1 os k with ho | ho
    · rw [ho]
    · rw [ho, LookupEnv_Unsetenv_ne os k key hk]
  have hind : independent e c h1 := ⟨hea, hca, hdis⟩
  refine ⟨⟨hsame, hev, fun os' key dflt => String_congr _ _ os' key dflt hsame⟩,
    ?_, ?_, ?_, ?_, ?_⟩
  · refine ⟨(frame_view c e h1 os false k v hea hdis2).1, ?_,
      (SetObj_Set_view c h1 os false k v hca hsep).1,
      (frame_view e c h1 os false k v hca hdis).1, ?_⟩
    · rw [SetObj_Set_os]
      rfl
    · rw [SetObj_Set_os]
      rfl
  · have hcu := SetObj_UnSet_view c h1 os k hsep
    have hev2 := (frame_view c e h1 os false k v hea hdis2).2
    have hcv2 := (frame_view e c h1 os false k v hca hdis).2
    refine ⟨hev2, hcu.1, ?_, ?_, hcv2, ?_⟩
    · intro hp
      rw [hcu.2]
      exact (UnSet_present (c.view h1) os k hp).2.2.2
    · intro key dflt hk
      exact hother c e key dflt hk hev2
    · intro key dflt hk
      exact hother e c key dflt hk hcv2
  · have hev3 := (frame_view c e h1 os true k v hea hdis2).1
    have hcv3 := (frame_view e c h1 os true k v hca hdis).1
    have hos1 : (c.Set h1 os true k v).2.2.1 = (Setenv os k v).1 := by
      rw [SetObj_Set_os]
      rfl
    have hos2 : (e.Set h1 os true k v).2.2.1 = (Setenv os k v).1 := by
      rw [SetObj_Set_os]
      rfl
    refine ⟨hos1, hos2, hev3, hcv3, ?_, ?_⟩
    · intro hok hno
      rw [hev3, hos1]
      exact String_os _ _ k d v hno (LookupEnv_Setenv os k v hok)
    · intro hok hno
      rw [hcv3, hos2]
      exact String_os _ _ k d v hno (LookupEnv_Setenv os k v hok)
  · refine ⟨(SetObj_UnSet_view c h1 os k hsep).2, ?_, ?_⟩
    · intro ho hf
      have hu := SetObj_UnSet_absent c h1 os k ho hf
      refine ⟨hu, ?_, ?_⟩
      · rw [hu]
        exact LookupEnv_Unsetenv_self os k
      · rw [hu]
        apply String_default
        · rw [hev, ← hsame.2.2.2 k]
          exact ho
        · exact LookupEnv_Unsetenv_self os k
        · rw [hev, ← hsame.2.2.1 k]
          exact hf
    · intro ho hf
      have hu := SetObj_UnSet_absent e h1 os k ho hf
      rw [hev] at ho hf
      refine ⟨hu, ?_, ?_⟩
      · rw [hu]
        exact LookupEnv_Unsetenv_self os k
      · rw [hu]
        apply String_default
        · rw [hsame.2.2.2 k]
          exact ho
        · exact LookupEnv_Unsetenv_self os k
        · rw [hsame.2.2.1 k]
          exact hf
  · intro ops
    obtain ⟨hi2, _, hsc2⟩ := runObjs_independent ops e c h1 os hind
    refine ⟨fun call => ?_, runObjs_only_second ops e c h1 os hind,
      runObjs_only_first ops e c h1 os hind,
      fun hse => runObjs_refines ops e c h1 os hind hse hsep⟩
    have hv := call_view (runObjs e c h1 os ops).2.1 (runObjs e c h1 os ops).2.2.1
      (runObjs e c h1 os ops).2.2.2 call hi2.2.1 (hsc2 hsep)
    exact ⟨(call_independent _ _ _ _ call (independent_symm _ _ _ hi2)).2,
      (call_independent _ _ _ _ call hi2).2, hv.2.1, hv.2.2⟩

/-- Witness of C13: the clone of an accessor with one loaded key has the
same contents, and setting a key on the clone leaves the original as it was;
`UnSet` on the clone of a key it does not hold removes the key from the OS
environment; and after two calls on the clone the original is as it was. -/
theorem Clone_independence_witness :
    sameContents
        ((SetObj.Clone ⟨some 0, none⟩ ⟨fun _ => [("A", "1")], 1⟩).1.view
          (SetObj.Clone ⟨some 0, none⟩ ⟨fun _ => [("A", "1")], 1⟩).2)
        ((⟨some 0, none⟩ : SetObj).view ⟨fun _ => [("A", "1")], 1⟩) ∧
      (⟨some 0, none⟩ : SetObj).view
          ((SetObj.Clone ⟨some 0, none⟩ ⟨fun _ => [("A", "1")], 1⟩).1.Set
            (SetObj.Clone ⟨some 0, none⟩ ⟨fun _ => [("A", "1")], 1⟩).2 [] false "A" "2").2.1
        = (⟨some 0, none⟩ : SetObj).view
            (SetObj.Clone ⟨some 0, none⟩ ⟨fun _ => [("A", "1")], 1⟩).2 ∧
      LookupEnv
          ((SetObj.Clone ⟨some 0, none⟩ ⟨fun _ => [("A", "1")], 1⟩).1.UnSet
            (SetObj.Clone ⟨some 0, none⟩ ⟨fun _ => [("A", "1")], 1⟩).2
            [("B", "os")] "B").2.2.1 "B" = none ∧
      (runObjs ⟨some 0, none⟩ (SetObj.Clone ⟨some 0, none⟩ ⟨fun _ => [("A", "1")], 1⟩).1
            (SetObj.Clone ⟨some 0, none⟩ ⟨fun _ => [("A", "1")], 1⟩).2 []
            [(true, Call.set false "A" "2"), (true, Call.unset "A")]).1.view
          (runObjs ⟨some 0, none⟩ (SetObj.Clone ⟨some 0, none⟩ ⟨fun _ => [("A", "1")], 1⟩).1
            (SetObj.Clone ⟨some 0, none⟩ ⟨fun _ => [("A", "1")], 1⟩).2 []
            [(true, Call.set false "A" "2"), (true, Call.unset "A")]).2.2.1
        = (⟨some 0, none⟩ : SetObj).view
            (SetObj.Clone ⟨some 0, none⟩ ⟨fun _ => [("A", "1")], 1⟩).2 :=
  ⟨(Clone_independence ⟨some 0, none⟩ _ ⟨fun _ => [("A", "1")], 1⟩ _ [] "A" "2" ""
      ⟨fun a ha => by cases ha; decide, fun a ha => by cases ha⟩ rfl).1.1,
    (Clone_independence ⟨some 0, none⟩ _ ⟨fun _ => [("A", "1")], 1⟩ _ [] "A" "2" ""
      ⟨fun a ha => by cases ha; decide, fun a ha => by cases ha⟩ rfl).2.1.1,
    ((Clone_independence ⟨some 0, none⟩ _ ⟨fun _ => [("A", "1")], 1⟩ _ [("B", "os")] "B" "" ""
      ⟨fun a ha => by cases ha; decide, fun a ha => by cases ha⟩ rfl).2.2.2.2.1.2.1
        (by decide) (by decide)).2.1,
    ((Clone_independence ⟨some 0, none⟩ _ ⟨fun _ => [("A", "1")], 1⟩ _ [] "A" "2" ""
      ⟨fun a ha => by cases ha; decide, fun a ha => by cases ha⟩ rfl).2.2.2.2.2
        [(true, Call.set false "A" "2"), (true, Call.unset "A")]).2.1 (by decide)⟩

end Env
